import Mathlib

/-!
Shallow embedding of the persona-driven relevance engine of
`src/persona_driven_extractor.py` (class `DocumentIntelligenceSystem`) and of
the batch loop in `main.py`.

Modelling conventions:
* Python `str` is modelled as `List Char` (`PyStr`), with the ASCII semantics
  of `str.lower`, `str.strip`, `str.split`, `\s`, `\w`, `\d`; the inputs the
  claims exercise are ASCII apart from the bullet glyphs, which are neither
  whitespace nor word characters in Python either.
* Python `float` scores are modelled by exact rationals `ℚ`; every claim in
  scope depends only on clamping, ordering, or exact literal arithmetic, never
  on binary rounding.
* Each `re.sub` / `re.match` / `re.search` call is embedded as a dedicated
  function implementing the leftmost / greedy-with-backtracking semantics of
  that concrete pattern; the Python pattern is quoted in the comment.
* Fallible code (an expression that can raise, such as `title[0]` on an empty
  string) is embedded with `Option`, `none` meaning the exception propagates.
-/

namespace PDE

/-- Python strings, modelled as lists of characters. -/
abbrev PyStr := List Char

/-- Build a `PyStr` from a Lean string literal. -/
def ofStr (s : String) : PyStr := s.data

/-- Python whitespace for `str.strip`, `str.split()` and regex `\s`
(ASCII fragment: space, tab, newline, carriage return, vertical tab, form feed). -/
def isPySpace (c : Char) : Bool :=
  c == ' ' || c == '\t' || c == '\n' || c == '\r' || c == Char.ofNat 11 || c == Char.ofNat 12

/-- Regex `\d` (ASCII). -/
def isDigitC (c : Char) : Bool := 48 ≤ c.toNat && c.toNat ≤ 57

/-- ASCII uppercase letter, regex `[A-Z]`. -/
def isUpperC (c : Char) : Bool := 65 ≤ c.toNat && c.toNat ≤ 90

/-- ASCII lowercase letter, regex `[a-z]`. -/
def isLowerC (c : Char) : Bool := 97 ≤ c.toNat && c.toNat ≤ 122

/-- ASCII letter, regex `[a-zA-Z]`; also Python's notion of a cased character
restricted to ASCII. -/
def isAsciiAlpha (c : Char) : Bool := isUpperC c || isLowerC c

/-- Regex `\w` (ASCII fragment): letters, digits, underscore. -/
def isWordC (c : Char) : Bool := isAsciiAlpha c || isDigitC c || c == '_'

/-- `str.lower` on one character (ASCII). -/
def toLowerC (c : Char) : Char :=
  if isUpperC c then Char.ofNat (c.toNat + 32) else c

/-- `str.upper` on one character (ASCII). -/
def toUpperC (c : Char) : Char :=
  if isLowerC c then Char.ofNat (c.toNat - 32) else c

/-- `str.lower`. -/
def pyLower (s : PyStr) : PyStr := s.map toLowerC

/-- `str.lstrip()`. -/
def pyLstrip (s : PyStr) : PyStr := s.dropWhile isPySpace

/-- `str.rstrip()`. -/
def pyRstrip (s : PyStr) : PyStr := (s.reverse.dropWhile isPySpace).reverse

/-- `str.strip()`. -/
def pyStrip (s : PyStr) : PyStr := pyRstrip (pyLstrip s)

/-- Helper for `str.split()`: `cur` is the current word, reversed.  (All the
scanning functions in this file are written with structural recursion on the
string plus small state, so that they evaluate by kernel reduction.) -/
def pySplitWsGo : PyStr → PyStr → List PyStr
  | [], cur => if cur.isEmpty then [] else [cur.reverse]
  | c :: rest, cur =>
    if isPySpace c then
      if cur.isEmpty then pySplitWsGo rest [] else cur.reverse :: pySplitWsGo rest []
    else pySplitWsGo rest (c :: cur)

/-- `str.split()` with no argument: maximal runs of non-whitespace, empties dropped. -/
def pySplitWs (s : PyStr) : List PyStr := pySplitWsGo s []

/-- `str.split(sep)` for a one-character separator: keeps empty pieces. -/
def pySplitChar (sep : Char) : PyStr → List PyStr
  | [] => [[]]
  | c :: rest =>
    if c == sep then [] :: pySplitChar sep rest
    else
      match pySplitChar sep rest with
      | [] => [[c]]
      | w :: ws => (c :: w) :: ws

/-- Python `needle in haystack` (substring containment). -/
def pyIn (p s : PyStr) : Bool :=
  (List.range (s.length + 1)).any (fun i => p.isPrefixOf (s.drop i))

/-- Helper for `str.count`: scan left to right, counting non-overlapping
occurrences of a non-empty pattern; `skip` characters after a match are still
part of the previous occurrence. -/
def pyCountGo (p : PyStr) : PyStr → Nat → Nat
  | [], _ => 0
  | _ :: rest, skip + 1 => pyCountGo p rest skip
  | c :: rest, 0 =>
    if p.isPrefixOf (c :: rest) then 1 + pyCountGo p rest (p.length - 1)
    else pyCountGo p rest 0

/-- `str.count(sub)`: non-overlapping occurrences; `count('')` is `len + 1`. -/
def pyCount (p s : PyStr) : Nat :=
  if p.isEmpty then s.length + 1 else pyCountGo p s 0

/-- `str.rfind(sub)`: highest index of an occurrence, `none` for Python's `-1`. -/
def pyRfind (p s : PyStr) : Option Nat :=
  ((List.range (s.length + 1)).filter (fun i => p.isPrefixOf (s.drop i))).getLast?

/-- `str.startswith(p)`. -/
def pyStartsWith (p s : PyStr) : Bool := p.isPrefixOf s

/-- `str.endswith(p)`. -/
def pyEndsWith (p s : PyStr) : Bool := p.isSuffixOf s

/-- `str.startswith((p1, p2, ...))`. -/
def pyStartsWithAny (ps : List PyStr) (s : PyStr) : Bool :=
  ps.any (fun p => pyStartsWith p s)

/-- `str.endswith((p1, p2, ...))`. -/
def pyEndsWithAny (ps : List PyStr) (s : PyStr) : Bool :=
  ps.any (fun p => pyEndsWith p s)

/-- Helper for `str.title`: the boolean records whether the previous character
was a (ASCII) letter. -/
def pyTitleAux : Bool → PyStr → PyStr
  | _, [] => []
  | prevAlpha, c :: rest =>
    if isAsciiAlpha c then
      (if prevAlpha then toLowerC c else toUpperC c) :: pyTitleAux true rest
    else c :: pyTitleAux false rest

/-- `str.title()` (ASCII). -/
def pyTitle (s : PyStr) : PyStr := pyTitleAux false s

/-- `str.isupper()` (ASCII): at least one cased character and no lowercase one. -/
def pyIsUpper (s : PyStr) : Bool :=
  s.any isAsciiAlpha && s.all (fun c => !isLowerC c)

/-- Helper for `str.istitle`: the boolean records whether the previous
character was cased. -/
def pyIsTitleAux : Bool → PyStr → Bool
  | _, [] => true
  | prevCased, c :: rest =>
    if isUpperC c then !prevCased && pyIsTitleAux true rest
    else if isLowerC c then prevCased && pyIsTitleAux true rest
    else pyIsTitleAux false rest

/-- `str.istitle()` (ASCII). -/
def pyIsTitle (s : PyStr) : Bool :=
  s.any isAsciiAlpha && pyIsTitleAux false s

/-- `' '.join(ws)`. -/
def pyJoinSpace (ws : List PyStr) : PyStr :=
  match ws with
  | [] => []
  | [w] => w
  | w :: rest => w ++ ' ' :: pyJoinSpace rest

/-- Size of `set(A) & set(B)` for Python word sets. -/
def interCard (A B : List PyStr) : Nat :=
  (A.dedup.filter (fun w => w ∈ B)).length

/-- Size of `set(A) | set(B)`. -/
def unionCard (A B : List PyStr) : Nat :=
  (A ++ B).dedup.length

end PDE

namespace PDE

/-! ### Title cleaning: `extract_clean_title` (source lines 274-329) and helpers -/

/-- Character class of `re.sub(r'^[\d\.\s\-\•\*o]+', '', text)`. -/
def isLeadJunk (c : Char) : Bool :=
  isDigitC c || c == '.' || isPySpace c || c == '-' || c.toNat == 0x2022 || c == '*' || c == 'o'

/-- `re.sub(r'^[\d\.\s\-\•\*o]+', '', text)`: drop the maximal run of the class
at the start (the pattern is anchored, so it fires at most once). -/
def subLeadJunk (s : PyStr) : PyStr := s.dropWhile isLeadJunk

/-- Character class `[IVXLCDMivxlcdm]`. -/
def isRomanC (c : Char) : Bool :=
  c == 'I' || c == 'V' || c == 'X' || c == 'L' || c == 'C' || c == 'D' || c == 'M' ||
  c == 'i' || c == 'v' || c == 'x' || c == 'l' || c == 'c' || c == 'd' || c == 'm'

/-- `re.sub(r'^[IVXLCDMivxlcdm]+\.\s*', '', text)`: the greedy run of Roman
letters must be followed by a literal dot (shorter runs end at a Roman letter,
never at a dot, so backtracking cannot help). -/
def subLeadRoman (s : PyStr) : PyStr :=
  let r := s.takeWhile isRomanC
  if r.isEmpty then s
  else
    match s.drop r.length with
    | '.' :: t => t.dropWhile isPySpace
    | _ => s

/-- `re.sub(r'^[A-Z]\.\s*', '', text)`. -/
def subLeadSingleCap (s : PyStr) : PyStr :=
  match s with
  | c :: '.' :: t => if isUpperC c then t.dropWhile isPySpace else s
  | _ => s

/-- One alternative of `re.sub(r'^(Chapter|Section|Unit|Part)\s+\d+[\.\-\s]*', '',
text, flags=re.IGNORECASE)`: returns the number of characters the whole match
consumes, if the word (already lowercase) is a case-insensitive prefix followed
by whitespace, digits, and a trailing run of dots, dashes and whitespace. -/
def structuralConsume (w : PyStr) (s : PyStr) : Option Nat :=
  if w.isPrefixOf (pyLower s) then
    let after := s.drop w.length
    let sp := after.takeWhile isPySpace
    if sp.isEmpty then none
    else
      let afterSp := after.drop sp.length
      let ds := afterSp.takeWhile isDigitC
      if ds.isEmpty then none
      else
        let afterDs := afterSp.drop ds.length
        let tr := afterDs.takeWhile (fun c => c == '.' || c == '-' || isPySpace c)
        some (w.length + sp.length + ds.length + tr.length)
  else none

/-- `re.sub(r'^(Chapter|Section|Unit|Part)\s+\d+[\.\-\s]*', '', text, re.IGNORECASE)`.
The four alternatives start with distinct letters, so at most one can apply. -/
def subLeadStructural (s : PyStr) : PyStr :=
  match [ofStr "chapter", ofStr "section", ofStr "unit", ofStr "part"].findSome?
      (fun w => structuralConsume w s) with
  | some n => s.drop n
  | none => s

/-- `re.sub(r'[\.\s]*$', '', text)`: the leftmost match is the maximal trailing
run of dots and whitespace (greedy `*` runs to the end-of-string anchor). -/
def subTrailingDotsSpaces (s : PyStr) : PyStr :=
  (s.reverse.dropWhile (fun c => c == '.' || isPySpace c)).reverse

/-- `re.sub(r'[:]\s*$', '', text)`: remove the leftmost colon that is followed
only by whitespace up to the end of the string, together with that whitespace. -/
def subTrailingColon (s : PyStr) : PyStr :=
  match (List.range s.length).find?
      (fun i => s.getD i ' ' == ':' && (s.drop (i + 1)).all isPySpace) with
  | some i => s.take i
  | none => s

/-- The alternation `(and|or|but|then|next|after|before)`. -/
def conjunctionWords : List PyStr :=
  [ofStr "and", ofStr "or", ofStr "but", ofStr "then", ofStr "next", ofStr "after",
   ofStr "before"]

/-- The alternation `(to|for|in|on|at|with|by|from)`. -/
def prepositionWords : List PyStr :=
  [ofStr "to", ofStr "for", ofStr "in", ofStr "on", ofStr "at", ofStr "with",
   ofStr "by", ofStr "from"]

/-- `re.sub(r'^(w1|w2|...)\s+', '', text, flags=re.IGNORECASE)` for a word list
none of whose members is a prefix of another: drop the matched word and the
following whitespace run. -/
def subLeadWordOf (ws : List PyStr) (s : PyStr) : PyStr :=
  let ls := pyLower s
  match ws.find? (fun w =>
      w.isPrefixOf ls &&
        (match ls.drop w.length with
         | c :: _ => isPySpace c
         | [] => false)) with
  | some w => (s.drop w.length).dropWhile isPySpace
  | none => s

/-- Helper for whitespace collapsing; the flag says whether the previous
character was whitespace (already emitted as one space). -/
def collapseWsGo : PyStr → Bool → PyStr
  | [], _ => []
  | c :: rest, inWs =>
    if isPySpace c then
      if inWs then collapseWsGo rest true else ' ' :: collapseWsGo rest true
    else c :: collapseWsGo rest false

/-- `re.sub(r'\s+', ' ', text)`: collapse every whitespace run to one space. -/
def collapseWs (s : PyStr) : PyStr := collapseWsGo s false

/-- `re.sub(r'[•‣◦⁃∙]', '', text)`. -/
def removeBulletChars (s : PyStr) : PyStr :=
  s.filter (fun c => !(c.toNat == 0x2022 || c.toNat == 0x2023 || c.toNat == 0x25E6 ||
    c.toNat == 0x2043 || c.toNat == 0x2219))

/-- The unit alternation of the measurement pattern, in source order
(`kg` precedes `g`, matching the regex alternation order). -/
def measurementUnits : List PyStr :=
  [ofStr "cup", ofStr "tablespoon", ofStr "teaspoon", ofStr "ml", ofStr "kg",
   ofStr "g", ofStr "oz", ofStr "lb"]

/-- Try `\b\d+\s*(cup|...)\b` at the current position of
`re.sub(r'\b\d+\s*(cup|tablespoon|teaspoon|ml|kg|g|oz|lb)\b', '', text, re.IGNORECASE)`;
`prevWord` says whether the character before this position is a word character
(which defeats the leading `\b`, digits being word characters).
Returns the length of the match. -/
def measurementConsume (prevWord : Bool) (s : PyStr) : Option Nat :=
  if prevWord then none
  else
    let ds := s.takeWhile isDigitC
    if ds.isEmpty then none
    else
      let rest1 := s.drop ds.length
      let sp := rest1.takeWhile isPySpace
      let lrest2 := pyLower (rest1.drop sp.length)
      match measurementUnits.find? (fun u =>
          u.isPrefixOf lrest2 &&
            (match lrest2.drop u.length with
             | [] => true
             | c :: _ => !isWordC c)) with
      | some u => some (ds.length + sp.length + u.length)
      | none => none

/-- Left-to-right scan of the measurement substitution; matched spans are
deleted (`skip` counts their remaining characters) and scanning resumes after
them with the word-character state a unit's final letter leaves behind. -/
def subMeasurementsGo : PyStr → Bool → Nat → PyStr
  | [], _, _ => []
  | _ :: rest, _, skip + 1 => subMeasurementsGo rest true skip
  | c :: rest, prevWord, 0 =>
    match measurementConsume prevWord (c :: rest) with
    | some n => subMeasurementsGo rest true (n - 1)
    | none => c :: subMeasurementsGo rest (isWordC c) 0

/-- `re.sub(r'\b\d+\s*(cup|tablespoon|teaspoon|ml|kg|g|oz|lb)\b', '', text, re.IGNORECASE)`. -/
def subMeasurements (s : PyStr) : PyStr := subMeasurementsGo s false 0

end PDE

namespace PDE

/-- Try each alternative of a regex alternation as a literal prefix of `ls` and
continue with `k` on the rest; regex backtracking makes the overall match an
existential over the alternatives. -/
def matchAltThen (ws : List PyStr) (k : PyStr → Bool) (ls : PyStr) : Bool :=
  ws.any (fun w => w.isPrefixOf ls && k (ls.drop w.length))

/-- Regex `\s+` followed by continuation `k`: backtracking may consume any
non-zero part of the whitespace run. -/
def afterSpaces1 (k : PyStr → Bool) (t : PyStr) : Bool :=
  (List.range (t.takeWhile isPySpace).length).any (fun j => k (t.drop (j + 1)))

/-- Regex `\s*` followed by continuation `k`. -/
def afterSpaces0 (k : PyStr → Bool) (t : PyStr) : Bool :=
  k t || afterSpaces1 k t

/-- Regex `\s*$` (no MULTILINE): all remaining characters are whitespace
(the `$` before a final newline is subsumed, the newline being whitespace). -/
def wsToEnd (t : PyStr) : Bool := t.all isPySpace

/-- Head of the rest is whitespace (used for a trailing `\s+` with nothing after). -/
def headIsSpace (t : PyStr) : Bool :=
  match t with
  | c :: _ => isPySpace c
  | [] => false

/-- Head of the rest is a word character. -/
def headIsWord (t : PyStr) : Bool :=
  match t with
  | c :: _ => isWordC c
  | [] => false

/-- Head of the rest is a digit. -/
def headIsDigit (t : PyStr) : Bool :=
  match t with
  | c :: _ => isDigitC c
  | [] => false

/-- `is_incomplete_title` (source lines 418-429): the six `re.match` patterns,
applied with `re.IGNORECASE`, hence on the lowered text. -/
def is_incomplete_title (text : PyStr) : Bool :=
  let ls := pyLower text
  -- r'^(one|...|ten)\s+(possible|main|key|important)\s*$'
  (matchAltThen ([ "one", "two", "three", "four", "five", "six", "seven", "eight",
      "nine", "ten"].map ofStr)
    (afterSpaces1 (matchAltThen ([ "possible", "main", "key", "important"].map ofStr)
      wsToEnd)) ls) ||
  -- r'^(the|a|an)\s+(most|main|key|important)\s*$'
  (matchAltThen ([ "the", "a", "an"].map ofStr)
    (afterSpaces1 (matchAltThen ([ "most", "main", "key", "important"].map ofStr)
      wsToEnd)) ls) ||
  -- r'^(is|are|was|were)\s*$'
  (matchAltThen ([ "is", "are", "was", "were"].map ofStr) wsToEnd ls) ||
  -- r'^(example|solution|method|approach|technique)\s*$'
  (matchAltThen ([ "example", "solution", "method", "approach", "technique"].map ofStr)
    wsToEnd ls) ||
  -- r'^(this|that|these|those)\s+(is|are|was|were)\s*$'
  (matchAltThen ([ "this", "that", "these", "those"].map ofStr)
    (afterSpaces1 (matchAltThen ([ "is", "are", "was", "were"].map ofStr) wsToEnd)) ls) ||
  -- r'^\w+\s+(is|are|was|were)\s*$'  (the greedy \w+ is forced maximal)
  (let w := ls.takeWhile isWordC
   !w.isEmpty &&
     afterSpaces1 (matchAltThen ([ "is", "are", "was", "were"].map ofStr) wsToEnd)
       (ls.drop w.length))

/-- The `refinements` table of `refine_incomplete_title`, in source order. -/
def refinementTable : List (PyStr × PyStr) :=
  [(ofStr "example", ofStr "Example Application"),
   (ofStr "one possible solution is", ofStr "Solution Approach"),
   (ofStr "the most important", ofStr "Key Concepts"),
   (ofStr "main approach", ofStr "Primary Methodology"),
   (ofStr "key technique", ofStr "Core Technique"),
   (ofStr "this is", ofStr "Implementation Method"),
   (ofStr "method is", ofStr "Methodology")]

/-- `refine_incomplete_title` (source lines 431-461).  The `original_text`
parameter of the Python function is never read, so it is not modelled. -/
def refine_incomplete_title (text : PyStr) : PyStr :=
  let tl := pyLower text
  match refinementTable.find? (fun p => pyIn p.1 tl) with
  | some p => p.2
  | none =>
    -- r'^(one|two|three|four|five)\s+possible'
    if matchAltThen ([ "one", "two", "three", "four", "five"].map ofStr)
        (afterSpaces1 (fun t => (ofStr "possible").isPrefixOf t)) tl then
      ofStr "Solution Approaches"
    -- r'^example'
    else if (ofStr "example").isPrefixOf tl then ofStr "Example Implementation"
    else if pyIn (ofStr "rule") tl && pyIn (ofStr "based") tl then
      ofStr "Rule-based Architecture"
    else []

/-- `is_procedural_fragment` (source lines 463-473): five `re.match` patterns
with `re.IGNORECASE`. -/
def is_procedural_fragment (text : PyStr) : Bool :=
  let ls := pyLower text
  -- r'^(add|put|take|get|make|do|go|come|see|think|look)\s+'
  (matchAltThen ([ "add", "put", "take", "get", "make", "do", "go", "come", "see",
      "think", "look"].map ofStr) headIsSpace ls) ||
  -- r'^(first|second|third|finally|next|then)\s*[,:]'
  (matchAltThen ([ "first", "second", "third", "finally", "next", "then"].map ofStr)
    (afterSpaces0 (fun t =>
      match t with
      | c :: _ => c == ',' || c == ':'
      | [] => false)) ls) ||
  -- r'^step\s+\d+'
  ((ofStr "step").isPrefixOf ls && afterSpaces1 headIsDigit (ls.drop 4)) ||
  -- r'^\d+\.\s*(add|put|take|get|make)'
  (let ds := ls.takeWhile isDigitC
   !ds.isEmpty &&
     (match ls.drop ds.length with
      | '.' :: t =>
        afterSpaces0 (fun t2 =>
          pyStartsWithAny ([ "add", "put", "take", "get", "make"].map ofStr) t2) t
      | _ => false)) ||
  -- r'^(until|during|before|after|when|while)\s+'
  (matchAltThen ([ "until", "during", "before", "after", "when", "while"].map ofStr)
    headIsSpace ls)

/-- The `generic_enhancements` dictionary of `enhance_generic_titles`
(source lines 336-378), in insertion order. -/
def genericEnhancements : List (PyStr × PyStr) :=
  [(ofStr "learning objectives", ofStr "Course Learning Objectives"),
   (ofStr "objectives", ofStr "Learning Objectives"),
   (ofStr "introduction", ofStr "Course Introduction"),
   (ofStr "overview", ofStr "Topic Overview"),
   (ofStr "summary", ofStr "Chapter Summary"),
   (ofStr "conclusion", ofStr "Key Conclusions"),
   (ofStr "benefits", ofStr "Key Benefits"),
   (ofStr "advantages", ofStr "Key Advantages"),
   (ofStr "importance", ofStr "Strategic Importance"),
   (ofStr "applications", ofStr "Practical Applications"),
   (ofStr "uses", ofStr "Primary Uses"),
   (ofStr "methods", ofStr "Core Methods"),
   (ofStr "techniques", ofStr "Key Techniques"),
   (ofStr "approaches", ofStr "Solution Approaches"),
   (ofStr "strategies", ofStr "Strategic Approaches"),
   (ofStr "principles", ofStr "Fundamental Principles"),
   (ofStr "concepts", ofStr "Core Concepts"),
   (ofStr "fundamentals", ofStr "Basic Fundamentals"),
   (ofStr "process", ofStr "Process Overview"),
   (ofStr "procedure", ofStr "Standard Procedure"),
   (ofStr "steps", ofStr "Process Steps"),
   (ofStr "guidelines", ofStr "Best Practice Guidelines"),
   (ofStr "framework", ofStr "Conceptual Framework"),
   (ofStr "model", ofStr "Theoretical Model"),
   (ofStr "theory", ofStr "Theoretical Foundation"),
   (ofStr "analysis", ofStr "Analytical Framework"),
   (ofStr "evaluation", ofStr "Assessment Methods"),
   (ofStr "implementation", ofStr "Implementation Strategy"),
   (ofStr "planning", ofStr "Strategic Planning"),
   (ofStr "management", ofStr "Management Principles"),
   (ofStr "organization", ofStr "Organizational Structure"),
   (ofStr "structure", ofStr "Structural Framework"),
   (ofStr "design", ofStr "System Design"),
   (ofStr "development", ofStr "Development Process"),
   (ofStr "research", ofStr "Research Methodology"),
   (ofStr "study", ofStr "Case Study Analysis"),
   (ofStr "review", ofStr "Literature Review"),
   (ofStr "comparison", ofStr "Comparative Analysis"),
   (ofStr "classification", ofStr "Classification System"),
   (ofStr "types", ofStr "Classification Types"),
   (ofStr "categories", ofStr "Category Framework")]

/-- `enhance_generic_titles` (source lines 331-391): exact-match lookup, then
the first table entry (insertion order) whose key is a suffix preceded by a
space rewrites the title to `prefix.title()` plus the last word of the
enhancement. -/
def enhance_generic_titles (text : PyStr) : PyStr :=
  let tl := pyStrip (pyLower text)
  match genericEnhancements.find? (fun p => p.1 == tl) with
  | some p => p.2
  | none =>
    match genericEnhancements.find? (fun p => pyEndsWith (' ' :: p.1) tl) with
    | some p =>
      let pre := pyStrip (tl.take (tl.length - p.1.length))
      pyTitle pre ++ ' ' :: ((pySplitWs p.2).getLastD [])
    | none => text

/-- `single_word_rejects` of `is_too_generic_after_processing`. -/
def singleWordRejects : List PyStr :=
  [ "example", "method", "approach", "technique", "solution", "problem",
    "issue", "concept", "idea", "theory", "practice", "study", "research",
    "analysis", "review", "summary", "overview", "introduction", "conclusion"].map ofStr

/-- `is_too_generic_after_processing` (source lines 393-416): single generic
words plus the five `unclear_patterns` matched against the lowered text. -/
def is_too_generic_after_processing (text : PyStr) : Bool :=
  let tl := pyStrip (pyLower text)
  (tl ∈ singleWordRejects) ||
  -- r'^frequently\s+\w+'
  ((ofStr "frequently").isPrefixOf tl && afterSpaces1 headIsWord (tl.drop 10)) ||
  -- r'^\w+\s+(multiple|various|different|several)\s+\w+'
  (let w := tl.takeWhile isWordC
   !w.isEmpty &&
     afterSpaces1 (matchAltThen ([ "multiple", "various", "different", "several"].map ofStr)
       (afterSpaces1 headIsWord)) (tl.drop w.length)) ||
  -- r'^(this|that|these|those)\s+'
  (matchAltThen ([ "this", "that", "these", "those"].map ofStr) headIsSpace tl) ||
  -- r'^\w+\s+(and|or)\s+\w+\s+(and|or)'
  (let w := tl.takeWhile isWordC
   !w.isEmpty &&
     afterSpaces1 (matchAltThen ([ "and", "or"].map ofStr)
       (afterSpaces1 (fun t =>
         let w2 := t.takeWhile isWordC
         !w2.isEmpty &&
           afterSpaces1 (fun t3 =>
             (ofStr "and").isPrefixOf t3 || (ofStr "or").isPrefixOf t3)
             (t.drop w2.length))))
       (tl.drop w.length)) ||
  -- r'^\w+ing\s+\w+'  (the greedy \w+ forces the run to end in "ing")
  (let w := tl.takeWhile isWordC
   w.length ≥ 4 && pyEndsWith (ofStr "ing") w && afterSpaces1 headIsWord (tl.drop w.length))

/-- `enhance_title_formatting` (source lines 475-502). -/
def enhance_title_formatting (text : PyStr) : PyStr :=
  let text :=
    if pyIsUpper text && (pySplitWs text).length > 1 then
      pyJoinSpace ((pySplitWs text).map (fun w =>
        if w.length ≤ 3 && pyIsUpper w then w else pyTitle w))
    else text
  let tl := pyLower text
  if tl == ofStr "example" then ofStr "Example Implementation"
  else if tl == ofStr "method" then ofStr "Methodology"
  else if tl == ofStr "approach" then ofStr "Solution Approach"
  else if tl == ofStr "technique" then ofStr "Core Technique"
  else if pyIn (ofStr "extraction") tl && (pySplitWs text).length == 1 then
    text ++ ofStr " Methods"
  else text

/-- `extract_clean_title` (source lines 274-329): the full cleaning cascade.
An empty result models Python's `return ""` (candidate rejected). -/
def extract_clean_title (text : PyStr) : PyStr :=
  if text.isEmpty then []
  else
    let t := subLeadJunk text
    let t := subLeadRoman t
    let t := subLeadSingleCap t
    let t := subLeadStructural t
    let t := subTrailingDotsSpaces t
    let t := subTrailingColon t
    let t := subLeadWordOf conjunctionWords t
    let t := subLeadWordOf prepositionWords t
    let t := pyStrip (collapseWs t)
    let t := removeBulletChars t
    let t := subMeasurements t
    let t := pyStrip (collapseWs t)
    if t.length < 3 then []
    else
      if is_incomplete_title t && (refine_incomplete_title t).isEmpty then []
      else
        let t := if is_incomplete_title t then refine_incomplete_title t else t
        let t := enhance_generic_titles t
        if is_procedural_fragment t then []
        else if (match t with | c :: _ => isLowerC c | [] => false) then []
        else
          let t := enhance_title_formatting t
          if is_too_generic_after_processing t then [] else t

end PDE

namespace PDE

/-! ### Title validation: `is_valid_section_title` (source lines 504-549) -/

/-- Regex `$` right after a final quantifier: end of string, or just before a
final newline. -/
def dollarOnly (t : PyStr) : Bool := t.isEmpty || t == ['\n']

/-- Unanchored `re.search`: does the continuation match at some position? -/
def searchPos (s : PyStr) (k : PyStr → Bool) : Bool :=
  (List.range (s.length + 1)).any (fun i => k (s.drop i))

/-- A whole-word occurrence of `w` (letters only) at position `i` of `s`:
`\b` before reduces to start-of-string or a non-word predecessor, `\b` after to
end-of-string or a non-word successor. -/
def wordOccursAt (w s : PyStr) (i : Nat) : Bool :=
  w.isPrefixOf (s.drop i) &&
    (i == 0 || !isWordC (s.getD (i - 1) ' ')) &&
    (i + w.length == s.length || !isWordC (s.getD (i + w.length) ' '))

/-- No newline among positions `[a, b)` of `s` (the region regex `.*` must cross). -/
def noNewlineBetween (s : PyStr) (a b : Nat) : Bool :=
  (List.range (b - a)).all (fun k => !(s.getD (a + k) ' ' == '\n'))

/-- `re.search(r'\b(until|for|in|on|with)\b.*\b(until|for|in|on|with)\b', ...)`
on the lowered title: two in-order whole-word occurrences with no newline
between them. -/
def repeatedPrepositionSearch (ls : PyStr) : Bool :=
  let ws := [ofStr "until", ofStr "for", ofStr "in", ofStr "on", ofStr "with"]
  (List.range (ls.length + 1)).any (fun i =>
    ws.any (fun w1 =>
      wordOccursAt w1 ls i &&
        (List.range (ls.length + 1)).any (fun j =>
          i + w1.length ≤ j &&
            noNewlineBetween ls (i + w1.length) j &&
            ws.any (fun w2 => wordOccursAt w2 ls j))))

/-- Regex `$` at any position: end of string or just before a final newline. -/
def dollarAt (s : PyStr) (p : Nat) : Bool :=
  p == s.length || (p + 1 == s.length && s.getD p ' ' == '\n')

/-- `re.search(r'\.$.*\.$', ...)`: a dot at a `$` position, then `.*` (which
cannot cross a newline), then another dot at a `$` position. -/
def doubleSentenceSearch (s : PyStr) : Bool :=
  (List.range s.length).any (fun i =>
    s.getD i ' ' == '.' && dollarAt s (i + 1) &&
      (List.range (s.length + 1)).any (fun j =>
        i + 1 ≤ j && noNewlineBetween s (i + 1) j &&
          s.getD j ' ' == '.' && dollarAt s (j + 1)))

/-- The bullet class `[•\-\*o]` under `re.IGNORECASE` (which makes `o` also
match `O`). -/
def isBulletClass (c : Char) : Bool :=
  c.toNat == 0x2022 || c == '-' || c == '*' || c == 'o' || c == 'O'

/-- The `exclusions` loop of `is_valid_section_title` (source lines 510-534):
every pattern is tried with `re.search(..., re.IGNORECASE)`. -/
def titleExclusions (title : PyStr) : Bool :=
  let lt := pyLower title
  let stripped := pyLstrip title
  -- r'^\d+\s*[a-zA-Z]+\s*$'
  (let ds := title.takeWhile isDigitC
   !ds.isEmpty &&
     (let r1 := title.drop ds.length
      let sp := r1.takeWhile isPySpace
      let r2 := r1.drop sp.length
      let as_ := r2.takeWhile isAsciiAlpha
      !as_.isEmpty && wsToEnd (r2.drop as_.length))) ||
  -- r'^\s*[•\-\*o]\s*'  (under IGNORECASE the class contains O as well)
  (match stripped with
   | c :: _ => isBulletClass c
   | [] => false) ||
  -- r'page\s+\d+'
  (searchPos lt (fun t => (ofStr "page").isPrefixOf t &&
    afterSpaces1 headIsDigit (t.drop 4))) ||
  -- r'^\d+\.\s*'
  (let ds := title.takeWhile isDigitC
   !ds.isEmpty &&
     (match title.drop ds.length with
      | '.' :: _ => true
      | _ => false)) ||
  -- r'\.$.*\.$'
  doubleSentenceSearch title ||
  -- r'^\s*[•\-\*o]\s*\d+'
  (match stripped with
   | c :: t => isBulletClass c && afterSpaces0 headIsDigit t
   | [] => false) ||
  -- r'^\s*o\s+'
  (match stripped with
   | c :: t => (c == 'o' || c == 'O') && headIsSpace t
   | [] => false) ||
  -- r'^\s*-\s+'
  (match stripped with
   | c :: t => c == '-' && headIsSpace t
   | [] => false) ||
  -- r'^\s*\*\s+'
  (match stripped with
   | c :: t => c == '*' && headIsSpace t
   | [] => false) ||
  -- r'^\s*•\s+'
  (match stripped with
   | c :: t => c.toNat == 0x2022 && headIsSpace t
   | [] => false) ||
  -- r'^\s*(and|or|but|then|next|after|before)\s+'
  (matchAltThen conjunctionWords headIsSpace (pyLstrip lt)) ||
  -- r'\b(until|for|in|on|with)\b.*\b(until|for|in|on|with)\b'
  repeatedPrepositionSearch lt ||
  -- r'^\s*[a-z]'  (IGNORECASE makes this match ANY letter after leading spaces)
  (match stripped with
   | c :: _ => isAsciiAlpha c
   | [] => false) ||
  -- r'^\s*(to|for|in|on|at|with|by|from)\s+'
  (matchAltThen prepositionWords headIsSpace (pyLstrip lt)) ||
  -- r'[,;]\s*$'
  ((List.range title.length).any (fun i =>
    (title.getD i ' ' == ',' || title.getD i ' ' == ';') &&
      (title.drop (i + 1)).all isPySpace)) ||
  -- r'^(chapter|section|part|unit)\s+\d+$'
  (matchAltThen ([ "chapter", "section", "part", "unit"].map ofStr)
    (afterSpaces1 (fun t =>
      let ds := t.takeWhile isDigitC
      !ds.isEmpty && dollarOnly (t.drop ds.length))) lt) ||
  -- r'^\d+$'
  (let ds := title.takeWhile isDigitC
   !ds.isEmpty && dollarOnly (title.drop ds.length)) ||
  -- r'^[ivxlcdm]+$'  (IGNORECASE)
  (let rs := title.takeWhile isRomanC
   !rs.isEmpty && dollarOnly (title.drop rs.length)) ||
  -- r'^(a|an|the)\s+\w+\s+(is|are|was|were)\s*$'
  (matchAltThen ([ "a", "an", "the"].map ofStr)
    (afterSpaces1 (fun t =>
      let w := t.takeWhile isWordC
      !w.isEmpty &&
        afterSpaces1 (matchAltThen ([ "is", "are", "was", "were"].map ofStr) wsToEnd)
          (t.drop w.length))) lt)

/-- The `quality_markers` list of `has_title_quality_markers` (source lines 556-569). -/
def qualityMarkers : List PyStr :=
  [ "algorithm", "analysis", "architecture", "classification", "extraction",
    "recognition", "processing",
    "learning", "intelligence", "neural", "network", "model", "system", "framework",
    "methodology",
    "semantic", "syntactic", "lexical", "parsing", "tokenization", "clustering",
    "regression",
    "optimization", "search", "knowledge", "reasoning", "inference", "representation",
    "introduction", "overview", "fundamentals", "principles", "applications",
    "implementation",
    "evaluation", "comparison", "survey", "review", "case study", "experimental",
    "supervised", "unsupervised", "reinforcement", "deep", "machine", "artificial",
    "natural",
    "computer", "vision", "speech", "text", "language", "data", "mining",
    "big data"].map ofStr

/-- The `compound_markers` list (source lines 572-576). -/
def compoundMarkers : List PyStr :=
  [ "rule-based", "knowledge-based", "case-based", "tree-based", "model-based",
    "data-driven", "feature-based", "content-based", "context-aware", "real-time",
    "multi-agent", "multi-class", "multi-layer", "cross-validation",
    "decision-making"].map ofStr

/-- `has_title_quality_markers` (source lines 551-591).  The code after the
first `return` (lines 593-615) is unreachable and is not modelled. -/
def has_title_quality_markers (title : PyStr) : Bool :=
  let tl := pyLower title
  let has_marker := (qualityMarkers ++ compoundMarkers).any (fun m => pyIn m tl)
  let ws := pySplitWs title
  let is_proper_phrase :=
    ws.length ≥ 2 &&
      (match title with
       | c :: _ => isUpperC c
       | [] => false) &&
      (ws.drop 1).any (fun w =>
        match w with
        | c :: _ => isUpperC c
        | [] => false)
  let is_technical :=
    title.length ≥ 8 && (title.drop 1).any isUpperC && !pyIsUpper title
  has_marker || is_proper_phrase || is_technical

/-- The `generic_rejects` list of `is_valid_section_title` (source line 541). -/
def genericRejects : List PyStr :=
  [ "example", "method", "approach", "technique", "solution", "problem", "issue",
    "concept", "idea", "theory", "practice"].map ofStr

/-- `is_valid_section_title` (source lines 504-549).  The `block` and
`structure` parameters of the Python function are never read in the body, so
they are not modelled. -/
def is_valid_section_title (title : PyStr) : Bool :=
  if title.isEmpty || title.length < 3 || title.length > 80 then false
  else if titleExclusions title then false
  else if !has_title_quality_markers title then false
  else if pyStrip (pyLower title) ∈ genericRejects then false
  else if (pySplitWs title).length == 1 && title.length < 6 then false
  else true

end PDE

namespace PDE

/-! ### Relevance scoring (source lines 617-824 and 971-1014) -/

/-- `re.search(r'\b' + term + r'\b', s)` for a term made of letters. -/
def wordSearch (w s : PyStr) : Bool :=
  (List.range (s.length + 1)).any (fun i => wordOccursAt w s i)

/-- Last `n` characters of a string, Python `s[-n:]` for `len(s) >= n`. -/
def lastN (n : Nat) (s : PyStr) : PyStr := s.drop (s.length - n)

/-- `analyze_persona_context` (source lines 710-824).  Both arguments are
lowercase at every call site (`' '.join(keywords).lower()` and `title.lower()`),
but the body's own `word.lower()` calls are modelled faithfully. -/
def analyze_persona_context (persona_text title_lower : PyStr) : ℚ :=
  let persona_words := pySplitWs persona_text
  let title_words := pySplitWs title_lower
  let longWords := persona_words.filter (fun w => w.length > 3)
  let demographic_indicators := longWords.filter (fun w =>
    let wl := pyLower w
    pyEndsWithAny ([ "ing", "er", "or", "ist", "ent"].map ofStr) wl ||
      w.length ≤ 6 ||
      wl ∈ ([ "group", "team", "people", "member", "individual", "person"].map ofStr))
  let rest1 := longWords.filter (fun w =>
    let wl := pyLower w
    !(pyEndsWithAny ([ "ing", "er", "or", "ist", "ent"].map ofStr) wl ||
      w.length ≤ 6 ||
      wl ∈ ([ "group", "team", "people", "member", "individual", "person"].map ofStr)))
  let role_indicators := rest1.filter (fun w =>
    let wl := pyLower w
    w.length > 8 ||
      pyEndsWithAny ([ "ional", "ment", "ance", "ence", "ity"].map ofStr) wl ||
      pyStartsWithAny ([ "manager", "director", "specialist", "coordinator"].map ofStr) wl)
  let rest2 := rest1.filter (fun w =>
    let wl := pyLower w
    !(w.length > 8 ||
      pyEndsWithAny ([ "ional", "ment", "ance", "ence", "ity"].map ofStr) wl ||
      pyStartsWithAny ([ "manager", "director", "specialist", "coordinator"].map ofStr) wl))
  let action_indicators := rest2.filter (fun w =>
    let wl := pyLower w
    pyEndsWithAny ([ "ate", "ize", "ify"].map ofStr) wl ||
      wl ∈ ([ "create", "manage", "provide", "prepare", "develop", "organize"].map ofStr))
  let rest3 := rest2.filter (fun w =>
    let wl := pyLower w
    !(pyEndsWithAny ([ "ate", "ize", "ify"].map ofStr) wl ||
      wl ∈ ([ "create", "manage", "provide", "prepare", "develop", "organize"].map ofStr)))
  let requirement_indicators := rest3.filter (fun w =>
    let wl := pyLower w
    pyIn [ '-' ] wl ||
      pyEndsWithAny ([ "free", "based", "style", "friendly"].map ofStr) wl ||
      pyStartsWithAny ([ "non", "anti", "pro", "multi"].map ofStr) wl)
  let boost1 : ℚ :=
    if demographic_indicators.isEmpty then 0
    else min ((interCard (demographic_indicators.map pyLower) title_words : ℚ) * 0.4) 0.6
  let boost2 : ℚ :=
    if role_indicators.isEmpty then 0
    else min ((interCard (role_indicators.map pyLower) title_words : ℚ) * 0.5) 0.7
  let boost3 : ℚ :=
    if action_indicators.isEmpty then 0
    else min ((interCard (action_indicators.map pyLower) title_words : ℚ) * 0.4) 0.5
  let boost4 : ℚ :=
    if requirement_indicators.isEmpty then 0
    else min ((interCard (requirement_indicators.map pyLower) title_words : ℚ) * 0.6) 0.8
  let persona_word_set := longWords.map pyLower
  let inter := interCard persona_word_set title_words
  let uni := unionCard persona_word_set title_words
  let boost5 : ℚ := if uni > 0 then ((inter : ℚ) / (uni : ℚ)) * 0.5 else 0
  let job_specific :=
    let bigger := persona_words.filter (fun w => w.length > 4)
    bigger.drop (bigger.length - 3)
  let boost6 : ℚ := job_specific.foldl (fun a w =>
    let sl := pyLower w
    if pyIn sl title_lower then a + 0.7
    else if title_words.any (fun tw => tw.length > 3 && pyIn (sl.take 4) tw) then a + 0.4
    else a) 0
  let compound_matches : Nat := persona_words.foldl (fun a pw =>
    if pyIn [ '-' ] pw || pw.length > 8 then
      a + title_words.countP (fun tw =>
        tw.length > 6 &&
          (pyIn ((pyLower pw).take 4) tw || pyIn (tw.take 4) (pyLower pw)))
    else a) 0
  let boost7 : ℚ :=
    if compound_matches > 0 then min ((compound_matches : ℚ) * 0.3) 0.6 else 0
  let meatTermsTitle := [ "meat", "chicken", "beef", "pork", "fish", "seafood", "lamb",
    "turkey", "bacon", "salmon", "tuna", "bourguignon", "steak"].map ofStr
  let vegTerms := [ "vegetable", "veggie", "salad", "bean", "lentil", "quinoa", "tofu",
    "chickpea", "hummus"].map ofStr
  let boost8 : ℚ :=
    if pyIn (ofStr "non-vegetarian") persona_text then
      if meatTermsTitle.any (fun t => wordSearch t title_lower) then 0.8 else 0
    else if pyIn (ofStr "vegetarian") persona_text then
      if vegTerms.any (fun t => wordSearch t title_lower) then 0.6 else 0
    else 0
  min (boost1 + boost2 + boost3 + boost4 + boost5 + boost6 + boost7 + boost8) 1.2

/-- Keyword weight `min(0.5 + len(keyword) * 0.05, 1.0)` (source line 635). -/
def kwWeight (k : PyStr) : ℚ := min (0.5 + (k.length : ℚ) * 0.05) 1

/-- The `connecting_words` list (source line 680). -/
def connectingWords : List PyStr :=
  [ "and", "or", "but", "with", "for", "in", "on", "at", "to", "from", "by"].map ofStr

/-- The `boring_words` list (source line 694). -/
def boringWords : List PyStr :=
  [ "introduction", "overview", "conclusion", "summary", "preface", "foreword",
    "general"].map ofStr

/-- `calculate_title_relevance` (source lines 617-708).  The result is `none`
when the Python code raises: with a non-empty keyword list and an empty title,
`title[0].isupper()` at line 704 raises `IndexError`.  The dead local
`match_quality` (written, never read) is not modelled. -/
def calculate_title_relevance (title : PyStr) (persona_keywords : List PyStr) :
    Option ℚ :=
  if persona_keywords.isEmpty then some 0.5
  else
    let tl := pyLower title
    let title_words := pySplitWs tl
    let exactKws := persona_keywords.filter (fun k => pyIn (pyLower k) tl)
    let exact_matches := exactKws.length
    let relevance0 : ℚ := exactKws.foldl (fun a k => a + kwWeight k) 0
    let relevance1 : ℚ :=
      if exact_matches > 1 then
        relevance0 + 0.4 * (min (exact_matches - 1) 3 : ℚ)
      else relevance0
    let word_overlap := interCard title_words (persona_keywords.map pyLower)
    let relevance2 : ℚ :=
      if word_overlap > 0 then relevance1 + min ((word_overlap : ℚ) * 0.3) 0.8
      else relevance1
    let relevance3 : ℚ := relevance2 +
      0.25 * (persona_keywords.countP (fun k =>
        k.length > 3 &&
          title_words.any (fun tw =>
            (tw.take 4).isPrefixOf (pyLower k) ||
              ((pyLower k).take 4).isPrefixOf tw)) : ℚ)
    let relevance4 : ℚ := relevance3 +
      analyze_persona_context (pyLower (pyJoinSpace persona_keywords)) tl
    let title_words_list := pySplitWs title
    let specificity_bonus : ℚ :=
      if title_words_list.length ≥ 2 && title.length ≥ 8 then
        let compound_words := title_words_list.countP (fun w =>
          pyIn [ '-' ] w || w.length > 7)
        let base := min (0.1 + (compound_words : ℚ) * 0.15) 0.4
        if title_words_list.any (fun w =>
            pyEndsWithAny ([ "ing", "ed", "er", "ion"].map ofStr) w) then
          base + 0.1
        else base
      else 0
    let quality_bonus : ℚ :=
      if !(connectingWords.any (fun w => w ∈ pySplitWs tl)) &&
          2 ≤ title_words_list.length && title_words_list.length ≤ 4 then 0.25
      else 0
    let penalties0 : ℚ :=
      if pyEndsWith [ ','] title ||
          pyStartsWithAny ([ "and", "or", "but", "with"].map ofStr) title then
        -0.4
      else 0
    let penalties1 : ℚ :=
      if boringWords.any (fun w => pyIn w tl) then penalties0 - 0.5 else penalties0
    let penalties2 : ℚ :=
      if tl ∈ ([ "introduction", "overview", "conclusion", "table of contents"].map ofStr)
      then penalties1 - 0.7
      else penalties1
    let structure_bonus? : Option ℚ :=
      if pyIsTitle title then some 0.15
      else
        match title with
        | [] => none
        | c :: _ => some (if isUpperC c && !pyIsUpper title then 0.15 else 0)
    structure_bonus?.map (fun sb =>
      max 0 (min (relevance4 + quality_bonus + penalties2 + specificity_bonus + sb) 1))

/-- The meat-term list of `calculate_content_relevance` (source line 1000). -/
def meatTermsContent : List PyStr :=
  [ "meat", "chicken", "beef", "pork", "fish", "seafood", "lamb", "turkey", "bacon",
    "salmon", "tuna"].map ofStr

/-- `calculate_content_relevance` (source lines 971-1014). -/
def calculate_content_relevance (content : PyStr) (persona_keywords : List PyStr) : ℚ :=
  if persona_keywords.isEmpty then 0.3
  else
    let cl := pyLower content
    let total_words := (pySplitWs content).length
    let keyword_hits : Nat :=
      persona_keywords.foldl (fun a k => a + pyCount (pyLower k) cl) 0
    let r1 : ℚ :=
      if total_words > 0 then
        min (((keyword_hits : ℚ) / (total_words : ℚ)) * 15) 0.7
      else 0
    let r2 : ℚ := r1 +
      0.1 * (persona_keywords.countP (fun k =>
        k.length > 3 &&
          (pyIn ((pyLower k).take 4) cl || pyIn (lastN 4 (pyLower k)) cl)) : ℚ)
    let persona_text := pyLower (pyJoinSpace persona_keywords)
    let r3 : ℚ :=
      if pyIn (ofStr "non-vegetarian") persona_text then
        if meatTermsContent.any (fun t => wordSearch t cl) then r2 + 0.3 else r2
      else r2
    let r4 : ℚ :=
      if pyIn [ ':'] content && pyCount [ ':'] content ≤ 5 then r3 + 0.2 else r3
    let r5 : ℚ := if total_words > 50 then r4 + 0.1 else r4
    min r5 1

end PDE

namespace PDE

/-! ### Document structure: `extract_complete_document_structure` (source lines 35-113) -/

/-- One text span produced by the PDF decoder (the `span` dicts of
`page.get_text("dict")`); the bounding box is never read downstream and is not
modelled. -/
structure Span where
  text : PyStr
  size : ℚ
  font : PyStr
  deriving DecidableEq, Repr

/-- One page as delivered by the decoder: `page_dict["blocks"]` (a block is a
list of lines, a line a list of spans; blocks without a `lines` key are
dropped by the loop and are not modelled) plus the plain `page.get_text()`. -/
structure PageIn where
  blocks : List (List (List Span))
  text : PyStr
  deriving DecidableEq, Repr

/-- The `block_info` records (source lines 78-86); `bbox` is never read by the
title/content pipeline and is not modelled. -/
structure TextBlock where
  text : PyStr
  page : Nat
  font_sizes : List ℚ
  font_names : List PyStr
  avg_size : ℚ
  max_size : ℚ
  deriving DecidableEq, Repr

/-- The `font_analysis` dictionary (source lines 96-111). -/
structure FontAnalysis where
  most_common_size : ℚ
  all_sizes : List ℚ
  size_distribution : List (ℚ × Nat)
  font_blocks : List (ℚ × List TextBlock)
  deriving DecidableEq, Repr

/-- One entry of `structure['pages']`. -/
structure PageRec where
  number : Nat
  text : PyStr
  blocks : List TextBlock
  deriving DecidableEq, Repr

/-- The `structure` dictionary.  `font_analysis` is `none` when the key is
missing or the dictionary empty (the two falsy cases tested at source line
120); `extract_complete_document_structure` always produces `some`. -/
structure DocStructure where
  pages : List PageRec
  all_text_blocks : List TextBlock
  font_analysis : Option FontAnalysis
  deriving DecidableEq, Repr

/-- Round-half-to-even on an exact rational, Python's `round(x)`. -/
def roundHalfEven (x : ℚ) : ℤ :=
  let n := x.floor
  let f := x - n
  if f < 1/2 then n
  else if 1/2 < f then n + 1
  else if n % 2 == 0 then n else n + 1

/-- Python `round(f, 1)`, modelled exactly on rationals. -/
def roundTo1 (q : ℚ) : ℚ := (roundHalfEven (q * 10) : ℚ) / 10

/-- Maximum of a list with a default for the empty case (`max(xs)` guarded). -/
def pyMax (l : List ℚ) (dflt : ℚ) : ℚ :=
  match l with
  | [] => dflt
  | x :: xs => xs.foldl max x

/-- `collections.Counter` built from a list: association list in order of first
occurrence. -/
def buildCounter (l : List ℚ) : List (ℚ × Nat) :=
  l.foldl (fun acc x =>
    if acc.any (fun p => p.1 == x) then
      acc.map (fun p => if p.1 == x then (p.1, p.2 + 1) else p)
    else acc ++ [(x, 1)]) []

/-- `Counter.most_common(1)[0][0]`: the key with the greatest count, earliest
insertion first among ties (`heapq.nlargest` is stable). -/
def firstMode (counter : List (ℚ × Nat)) : ℚ :=
  match counter with
  | [] => 12
  | h :: t => (t.foldl (fun best p => if p.2 > best.2 then p else best) h).1

/-- `defaultdict(list)` grouping: append under a key, creating the key at the
end on first use (dict insertion order). -/
def addToGroup (g : List (ℚ × List TextBlock)) (k : ℚ) (b : TextBlock) :
    List (ℚ × List TextBlock) :=
  if g.any (fun p => p.1 == k) then
    g.map (fun p => if p.1 == k then (p.1, p.2 ++ [b]) else p)
  else g ++ [(k, [b])]

/-- Relation for `sorted(xs, reverse=True)` on sizes. -/
def ratDescRel (a b : ℚ) : Prop := b ≤ a

instance : DecidableRel ratDescRel := fun a b => inferInstanceAs (Decidable (b ≤ a))

instance : IsTotal ℚ ratDescRel := ⟨fun a b => le_total b a⟩

instance : IsTrans ℚ ratDescRel := ⟨fun _ _ _ h1 h2 => le_trans h2 h1⟩

/-- Process one decoder line (source lines 61-93): returns the collected span
sizes (for `all_fonts`) and the optional `block_info`. -/
def processLine (pageNum : Nat) (line : List Span) : List ℚ × Option TextBlock :=
  let kept := line.filter (fun sp => !(pyStrip sp.text).isEmpty)
  let line_text := kept.foldl (fun acc sp => acc ++ pyStrip sp.text ++ [ ' ']) []
  let line_sizes := kept.map (fun sp => sp.size)
  let line_fonts := kept.map (fun sp => sp.font)
  if (pyStrip line_text).isEmpty then (line_sizes, none)
  else
    (line_sizes,
     some
       { text := pyStrip line_text
         page := pageNum + 1
         font_sizes := line_sizes
         font_names := line_fonts
         avg_size :=
           if line_sizes.isEmpty then 12
           else (line_sizes.foldl (· + ·) 0) / (line_sizes.length : ℚ)
         max_size := pyMax line_sizes 12 })

/-- `extract_complete_document_structure` (source lines 35-113).  The input is
the decoder's view of the document; the traversal order (pages, blocks, lines,
spans) matches the Python loops. -/
def extract_complete_document_structure (doc : List PageIn) : DocStructure :=
  let pageData := doc.enum.map (fun pi =>
    let pageNum := pi.1
    let page := pi.2
    let lines := page.blocks.flatten
    let results := lines.map (processLine pageNum)
    let fonts := (results.map Prod.fst).flatten
    let blocks := results.filterMap Prod.snd
    (({ number := pageNum + 1, text := page.text, blocks := blocks } : PageRec), fonts))
  let pages := pageData.map Prod.fst
  let all_fonts := (pageData.map Prod.snd).flatten
  let all_text_blocks := (pages.map PageRec.blocks).flatten
  let font_blocks := all_text_blocks.foldl
    (fun g b => addToGroup g (roundTo1 b.avg_size) b) []
  let fa : FontAnalysis :=
    if all_fonts.isEmpty then
      { most_common_size := 12
        all_sizes := [12]
        size_distribution := [(12, 1)]
        font_blocks := [] }
    else
      let counter := buildCounter (all_fonts.map roundTo1)
      { most_common_size := firstMode counter
        all_sizes := List.insertionSort ratDescRel (counter.map Prod.fst)
        size_distribution := counter
        font_blocks := font_blocks }
  { pages := pages
    all_text_blocks := all_text_blocks
    font_analysis := some fa }

end PDE

namespace PDE

/-! ### Title candidate generation (source lines 115-272) -/

/-- Character class `[a-zA-Z\s&-]` (identical to `[A-Z\s&-]` under
`re.IGNORECASE`). -/
def isTitleClassC (c : Char) : Bool :=
  isAsciiAlpha c || isPySpace c || c == '&' || c == '-'

/-- The tail `(?:\s*:|\s*$)` of the first three title patterns: either
whitespace up to end of string, or whitespace followed by a colon. -/
def tailColonOrEnd (t : PyStr) : Bool :=
  wsToEnd t ||
    (match t.dropWhile isPySpace with
     | c :: _ => c == ':'
     | [] => false)

/-- Descending list `[hi, hi-1, ..., lo]` used to try greedy quantifier
lengths longest-first. -/
def descRange (hi lo : Nat) : List Nat :=
  if lo > hi then [] else (List.range (hi + 1 - lo)).map (fun j => hi - j)

/-- `re.match(r'^([A-Z][a-zA-Z\s&-]{2,40})(?:\s*:|\s*$)', text, re.IGNORECASE)`,
returning `group(1)`: a letter, then a greedy (backtracking) run of 2 to 40
class characters whose remainder satisfies the tail. -/
def matchPattern1 (s : PyStr) : Option PyStr :=
  match s with
  | [] => none
  | c :: rest =>
    if isAsciiAlpha c then
      let run := rest.takeWhile isTitleClassC
      (descRange (min 40 run.length) 2).findSome? (fun k =>
        if tailColonOrEnd (rest.drop k) then some (c :: run.take k) else none)
    else none

/-- `re.match(r'^([A-Z\s&-]{3,30})(?:\s*:|\s*$)', text, re.IGNORECASE)`. -/
def matchPattern2 (s : PyStr) : Option PyStr :=
  let run := s.takeWhile isTitleClassC
  (descRange (min 30 run.length) 3).findSome? (fun k =>
    if tailColonOrEnd (s.drop k) then some (run.take k) else none)

/-- Cumulative lengths of `\w+(?:\s+\w+){0,j}` groups for `j = 0, ..., limit`,
each quantifier forced maximal (the following `\s`/`\w` contexts leave
backtracking no choice). -/
def wordSeqLens (wordClass : Char → Bool) (limit : Nat) (s : PyStr) : List Nat :=
  let w0 := s.takeWhile wordClass
  if w0.isEmpty then []
  else
    let rec extend (n : Nat) (fuel : Nat) : List Nat :=
      match fuel with
      | 0 => [n]
      | fuel + 1 =>
        let t := s.drop n
        let sp := t.takeWhile isPySpace
        if sp.isEmpty then [n]
        else
          let w := (t.drop sp.length).takeWhile wordClass
          if w.isEmpty then [n]
          else n :: extend (n + sp.length + w.length) fuel
    extend w0.length limit

/-- `re.match(r'^(\w+(?:\s+\w+){0,4})(?:\s*:|\s*$)', text, re.IGNORECASE)`:
greedy repetition, longest viable group first. -/
def matchPattern3 (s : PyStr) : Option PyStr :=
  ((wordSeqLens isWordC 4 s).reverse).findSome? (fun n =>
    if tailColonOrEnd (s.drop n) then some (s.take n) else none)

/-- `re.match(r'^([A-Za-z]+(?:\s+[A-Za-z]+){1,5})$', text, re.IGNORECASE)`:
two to six letter words; the group must reach the end anchor. -/
def matchPattern4 (s : PyStr) : Option PyStr :=
  (((wordSeqLens isAsciiAlpha 5 s).drop 1).reverse).findSome? (fun n =>
    if dollarOnly (s.drop n) then some (s.take n) else none)

/-- The `title_patterns` table with base confidences (source lines 145-150 and
220-225). -/
def titlePatternTable : List ((PyStr → Option PyStr) × ℚ) :=
  [(matchPattern1, 0.9), (matchPattern2, 0.8), (matchPattern3, 0.7), (matchPattern4, 0.6)]

/-- `is_isolated_line` (source lines 252-272). -/
def is_isolated_line (lines : List PyStr) (i : Nat) : Bool :=
  let line := pyStrip (lines.getD i [])
  let prev_empty := i == 0 || (pyStrip (lines.getD (i - 1) [])).isEmpty
  let next_empty := i == lines.length - 1 || (pyStrip (lines.getD (i + 1) [])).isEmpty
  let prev_different :=
    if i > 0 && !(pyStrip (lines.getD (i - 1) [])).isEmpty then
      (pyStrip (lines.getD (i - 1) [])).length > line.length * 2
    else true
  let next_different :=
    if i < lines.length - 1 && !(pyStrip (lines.getD (i + 1) [])).isEmpty then
      (pyStrip (lines.getD (i + 1) [])).length > line.length * 2
    else true
  prev_empty || next_empty || (prev_different && next_different)

/-- One title candidate dictionary (source lines 135-142 et al.), before the
dedup pass adds `combined_score`. -/
structure Candidate where
  title : PyStr
  page : Nat
  confidence : ℚ
  method : PyStr
  original_text : PyStr
  relevance : ℚ
  deriving DecidableEq, Repr

/-- Build a candidate; `none` propagates an exception from
`calculate_title_relevance`. -/
def mkCand (title : PyStr) (page : Nat) (conf : ℚ) (method orig : PyStr)
    (kws : List PyStr) : Option Candidate :=
  (calculate_title_relevance title kws).map (fun r =>
    { title := title, page := page, confidence := conf, method := method,
      original_text := orig, relevance := r })

/-- Strategy 1, font-based detection (source lines 126-142). -/
def strategy1 (fa : FontAnalysis) (kws : List PyStr) : Option (List Candidate) :=
  let larger := fa.all_sizes.filter (fun sz => decide (fa.most_common_size + 1 < sz))
  larger.foldlM (fun acc sz =>
    let blocks := ((fa.font_blocks.find? (fun p => p.1 == sz)).map Prod.snd).getD []
    blocks.foldlM (fun acc2 b =>
      let tc := extract_clean_title b.text
      if is_valid_section_title tc then
        (mkCand tc b.page 0.8 (ofStr "font_size") b.text kws).map (fun c => acc2 ++ [c])
      else some acc2) acc) []

/-- The inner pattern loop of strategy 2 (source lines 159-177): on a match
whose cleaned title validates, a candidate is appended and the loop breaks;
on a match that fails validation the next pattern is tried. -/
def tryPatternsMain (ps : List ((PyStr → Option PyStr) × ℚ)) (b : TextBlock)
    (text : PyStr) (mostCommon : ℚ) (kws : List PyStr) (acc : List Candidate) :
    Option (List Candidate) :=
  match ps with
  | [] => some acc
  | (pm, base) :: rest =>
    match pm text with
    | none => tryPatternsMain rest b text mostCommon kws acc
    | some g =>
      let tc := extract_clean_title g
      if is_valid_section_title tc then
        let conf := if decide (mostCommon + 1 < b.max_size) then base + 0.1 else base
        (mkCand tc b.page conf (ofStr "pattern") text kws).map (fun c => acc ++ [c])
      else tryPatternsMain rest b text mostCommon kws acc

/-- Strategy 2, pattern-based detection (source lines 144-177). -/
def strategy2 (s : DocStructure) (mostCommon : ℚ) (kws : List PyStr) :
    Option (List Candidate) :=
  s.all_text_blocks.foldlM (fun acc b =>
    let text := pyStrip b.text
    if text.length < 3 || text.length > 80 then some acc
    else tryPatternsMain titlePatternTable b text mostCommon kws acc) []

/-- Strategy 3, isolation-based detection (source lines 179-197). -/
def strategy3 (s : DocStructure) (kws : List PyStr) : Option (List Candidate) :=
  s.pages.foldlM (fun acc pg =>
    let lines := pySplitChar '\n' pg.text
    (List.range lines.length).foldlM (fun acc2 i =>
      let line := pyStrip (lines.getD i [])
      if 3 ≤ line.length && line.length ≤ 50 && is_isolated_line lines i then
        let tc := extract_clean_title line
        if !tc.isEmpty && tc.length ≥ 3 then
          (mkCand tc pg.number 0.6 (ofStr "isolation") line kws).map
            (fun c => acc2 ++ [c])
        else some acc2
      else some acc2) acc) []

/-- All generated candidates of the main path, in generation order
(strategy 1, then 2, then 3). -/
def gatherCandidates (s : DocStructure) (fa : FontAnalysis) (kws : List PyStr) :
    Option (List Candidate) := do
  let c1 ← strategy1 fa kws
  let c2 ← strategy2 s fa.most_common_size kws
  let c3 ← strategy3 s kws
  pure (c1 ++ c2 ++ c3)

/-- The dedup pass (source lines 199-208): keep the first candidate for each
normalized key `title.lower().strip()` of length above 2, attaching
`combined_score = confidence + relevance`. -/
def dedupCandidates : List Candidate → List PyStr → List (Candidate × ℚ)
  | [], _ => []
  | c :: rest, seen =>
    let key := pyStrip (pyLower c.title)
    if key ∉ seen ∧ key.length > 2 then
      (c, c.confidence + c.relevance) :: dedupCandidates rest (key :: seen)
    else dedupCandidates rest seen

/-- Python's stable descending sort by `combined_score` (source line 211). -/
def combinedDescRel (a b : Candidate × ℚ) : Prop := b.2 ≤ a.2

instance : DecidableRel combinedDescRel := fun a b => inferInstanceAs (Decidable (b.2 ≤ a.2))

instance : IsTotal (Candidate × ℚ) combinedDescRel := ⟨fun a b => le_total b.2 a.2⟩

instance : IsTrans (Candidate × ℚ) combinedDescRel := ⟨fun _ _ _ h1 h2 => le_trans h2 h1⟩

/-- Dedup followed by the stable descending sort: source lines 199-213. -/
def dedupAndRank (cs : List Candidate) : List (Candidate × ℚ) :=
  List.insertionSort combinedDescRel (dedupCandidates cs [])

/-- Python's stable ascending sort by the key `(-relevance, -confidence)`
(source line 249). -/
def fallbackRel (a b : Candidate) : Prop :=
  b.relevance < a.relevance ∨ (a.relevance = b.relevance ∧ b.confidence ≤ a.confidence)

instance : DecidableRel fallbackRel := fun a b =>
  inferInstanceAs (Decidable (_ ∨ _))

instance : IsTotal Candidate fallbackRel := by
  constructor
  intro a b
  rcases lt_trichotomy a.relevance b.relevance with h | h | h
  · exact Or.inr (Or.inl h)
  · rcases le_total b.confidence a.confidence with hc | hc
    · exact Or.inl (Or.inr ⟨h, hc⟩)
    · exact Or.inr (Or.inr ⟨h.symm, hc⟩)
  · exact Or.inl (Or.inl h)

instance : IsTrans Candidate fallbackRel := by
  constructor
  intro a b c hab hbc
  rcases hab with h1 | ⟨e1, h1⟩
  · rcases hbc with h2 | ⟨e2, h2⟩
    · exact Or.inl (h2.trans h1)
    · exact Or.inl (e2 ▸ h1)
  · rcases hbc with h2 | ⟨e2, h2⟩
    · exact Or.inl (e1 ▸ h2)
    · exact Or.inr ⟨e1.trans e2, h2.trans h1⟩

/-- The inner pattern loop of `identify_titles_by_patterns` (source lines
233-246): no `break`, every matching pattern whose cleaned title validates
contributes a candidate. -/
def tryPatternsFallback (ps : List ((PyStr → Option PyStr) × ℚ)) (b : TextBlock)
    (text : PyStr) (kws : List PyStr) (acc : List Candidate) :
    Option (List Candidate) :=
  match ps with
  | [] => some acc
  | (pm, base) :: rest =>
    match pm text with
    | none => tryPatternsFallback rest b text kws acc
    | some g =>
      let tc := extract_clean_title g
      if is_valid_section_title tc then
        match mkCand tc b.page base (ofStr "pattern_fallback") text kws with
        | none => none
        | some c => tryPatternsFallback rest b text kws (acc ++ [c])
      else tryPatternsFallback rest b text kws acc

/-- `identify_titles_by_patterns` (source lines 215-250): pattern strategy
only, sorted by `(-relevance, -confidence)`, capped at 8. -/
def identify_titles_by_patterns (s : DocStructure) (kws : List PyStr) :
    Option (List Candidate) :=
  (s.all_text_blocks.foldlM (fun acc b =>
    let text := pyStrip b.text
    if text.length < 3 || text.length > 80 then some acc
    else tryPatternsFallback titlePatternTable b text kws acc) []).map
    (fun cs => (List.insertionSort fallbackRel cs).take 8)

/-- The result entries of `identify_section_titles_advanced`: candidate dicts,
carrying `combined_score` only on the main path (the fallback path never adds
that key). -/
structure OutCandidate where
  cand : Candidate
  combined_score : Option ℚ
  deriving DecidableEq, Repr

/-- `identify_section_titles_advanced` (source lines 115-213). -/
def identify_section_titles_advanced (s : DocStructure) (kws : List PyStr) :
    Option (List OutCandidate) :=
  match s.font_analysis with
  | none =>
    (identify_titles_by_patterns s kws).map
      (fun cs => cs.map (fun c => { cand := c, combined_score := none }))
  | some fa =>
    (gatherCandidates s fa kws).map (fun cs =>
      (dedupAndRank cs).map (fun p => { cand := p.1, combined_score := some p.2 }))

end PDE

namespace PDE

/-! ### Persona requirement extraction and content filtering
(source lines 1064-1156 and 1158-1284) -/

/-- Regex `\b` at position `p` of `s`: the word-ness of the characters on the
two sides differs (string edges count as non-word). -/
def wordBoundaryAt (s : PyStr) (p : Nat) : Bool :=
  if p == 0 then
    match s with
    | c :: _ => isWordC c
    | [] => false
  else if p == s.length then isWordC (s.getD (s.length - 1) ' ')
  else !(isWordC (s.getD (p - 1) ' ') == isWordC (s.getD p ' '))

/-- `re.search(r'\b' + re.escape(term) + r'\b', s)` for an arbitrary literal
term: an occurrence flanked by word boundaries. -/
def boundarySearch (term s : PyStr) : Bool :=
  (List.range (s.length + 1)).any (fun i =>
    term.isPrefixOf (s.drop i) && wordBoundaryAt s i && wordBoundaryAt s (i + term.length))

/-- `re.findall(lit + r'\s+(\w+)', s)` for a literal word `lit` (no `\b`):
every non-overlapping occurrence of the literal followed by whitespace and a
word run contributes the word run. -/
def findAfterLitGo (lit : PyStr) : PyStr → Nat → List PyStr
  | [], _ => []
  | _ :: rest, skip + 1 => findAfterLitGo lit rest skip
  | c :: rest, 0 =>
    let matched : Option (PyStr × Nat) :=
      if lit.isPrefixOf (c :: rest) then
        let t := (c :: rest).drop lit.length
        let sp := t.takeWhile isPySpace
        if sp.isEmpty then none
        else
          let w := (t.drop sp.length).takeWhile isWordC
          if w.isEmpty then none
          else some (w, lit.length + sp.length + w.length)
      else none
    match matched with
    | some (w, n) => w :: findAfterLitGo lit rest (n - 1)
    | none => findAfterLitGo lit rest 0

/-- Wrapper for the scan above. -/
def findAfterLit (lit : PyStr) (s : PyStr) : List PyStr := findAfterLitGo lit s 0

/-- `re.findall(r'(\w+)-' + suffix, s)`: every maximal word run directly
followed by a dash and the literal suffix. -/
def findBeforeDashGo (suffix : PyStr) : PyStr → Nat → List PyStr
  | [], _ => []
  | _ :: rest, skip + 1 => findBeforeDashGo suffix rest skip
  | c :: rest, 0 =>
    let matched : Option (PyStr × Nat) :=
      if isWordC c then
        let run := (c :: rest).takeWhile isWordC
        if ('-' :: suffix).isPrefixOf ((c :: rest).drop run.length) then
          some (run, run.length + 1 + suffix.length)
        else none
      else none
    match matched with
    | some (w, n) => w :: findBeforeDashGo suffix rest (n - 1)
    | none => findBeforeDashGo suffix rest 0

/-- Wrapper for the scan above. -/
def findBeforeDash (suffix : PyStr) (s : PyStr) : List PyStr :=
  findBeforeDashGo suffix s 0

/-- `re.findall(r'non-(\w+)', s)`: word runs directly after the literal `non-`. -/
def findAfterDashLitGo (lit : PyStr) : PyStr → Nat → List PyStr
  | [], _ => []
  | _ :: rest, skip + 1 => findAfterDashLitGo lit rest skip
  | c :: rest, 0 =>
    let matched : Option (PyStr × Nat) :=
      if lit.isPrefixOf (c :: rest) then
        let w := ((c :: rest).drop lit.length).takeWhile isWordC
        if w.isEmpty then none else some (w, lit.length + w.length)
      else none
    match matched with
    | some (w, n) => w :: findAfterDashLitGo lit rest (n - 1)
    | none => findAfterDashLitGo lit rest 0

/-- Wrapper for the scan above. -/
def findAfterDashLit (lit : PyStr) (s : PyStr) : List PyStr :=
  findAfterDashLitGo lit s 0

/-- `re.findall(r'must\s+include\s+(\w+)', s)`. -/
def findMustIncludeGo : PyStr → Nat → List PyStr
  | [], _ => []
  | _ :: rest, skip + 1 => findMustIncludeGo rest skip
  | c :: rest, 0 =>
    let matched : Option (PyStr × Nat) :=
      if (ofStr "must").isPrefixOf (c :: rest) then
        let t1 := (c :: rest).drop 4
        let sp1 := t1.takeWhile isPySpace
        if sp1.isEmpty then none
        else
          let t2 := t1.drop sp1.length
          if (ofStr "include").isPrefixOf t2 then
            let t3 := t2.drop 7
            let sp2 := t3.takeWhile isPySpace
            if sp2.isEmpty then none
            else
              let w := (t3.drop sp2.length).takeWhile isWordC
              if w.isEmpty then none
              else some (w, 4 + sp1.length + 7 + sp2.length + w.length)
          else none
      else none
    match matched with
    | some (w, n) => w :: findMustIncludeGo rest (n - 1)
    | none => findMustIncludeGo rest 0

/-- Wrapper for the scan above. -/
def findMustInclude (s : PyStr) : List PyStr := findMustIncludeGo s 0

/-- The `requirement_indicators` list (source line 1234). -/
def requirementIndicators : List PyStr :=
  [ "compliant", "certified", "approved", "standard", "regulation", "policy",
    "guideline"].map ofStr

/-- `extract_requirement_patterns` (source lines 1158-1284): the result models
`patterns['requirements'] = (inclusion_terms, exclusion_terms)`, `none` for the
empty dictionary. -/
def extract_requirement_patterns (persona_text : PyStr) :
    Option (List PyStr × List PyStr) :=
  let words := pySplitWs persona_text
  let persona_lower := pyLower persona_text
  -- first loop: words after negation / inclusion cue words (next up to 3 words)
  let neg1 := (words.enum.map (fun iw =>
    if pyLower iw.2 ∈ ([ "no", "not", "without", "avoid", "exclude", "non-"].map ofStr)
    then ((words.drop (iw.1 + 1)).take 3).map pyLower
    else [])).flatten
  let inc1 := (words.enum.map (fun iw =>
    if pyLower iw.2 ∈ ([ "with", "include", "containing", "featuring", "using"].map ofStr)
    then ((words.drop (iw.1 + 1)).take 3).map pyLower
    else [])).flatten
  -- method 1: explicit exclusion phrases
  let neg2 := findAfterLit (ofStr "without") persona_lower ++
    findAfterLit (ofStr "no") persona_lower ++
    findAfterLit (ofStr "avoid") persona_lower ++
    findAfterLit (ofStr "exclude") persona_lower ++
    findBeforeDash (ofStr "free") persona_lower ++
    findAfterDashLit (ofStr "non-") persona_lower
  -- method 2: explicit inclusion phrases
  let inc2 := findAfterLit (ofStr "only") persona_lower ++
    findAfterLit (ofStr "exclusively") persona_lower ++
    findBeforeDash (ofStr "only") persona_lower ++
    findBeforeDash (ofStr "based") persona_lower ++
    findMustInclude persona_lower ++
    findAfterLit (ofStr "require") persona_lower
  -- method 3: context words around requirement indicators
  let words_lower := words.map pyLower
  let inc3 := (words_lower.enum.map (fun iw =>
    if iw.2 ∈ requirementIndicators then
      let start := iw.1 - 3
      ((words_lower.drop start).take (iw.1 + 4 - start)).filter
        (fun w => w.length > 3 && w ∉ requirementIndicators)
    else [])).flatten
  -- final loop: dietary carve-outs and compound prefixes / suffixes
  let step := fun (acc : List PyStr × List PyStr) (word : PyStr) =>
    let wl := pyLower word
    if wl == ofStr "vegetarian" then
      (acc.1, acc.2 ++ ([ "egg", "eggs", "meat", "fish", "chicken", "beef", "pork",
        "seafood"].map ofStr))
    else if wl == ofStr "vegan" then
      (acc.1, acc.2 ++ ([ "egg", "eggs", "meat", "fish", "chicken", "beef", "pork",
        "seafood", "dairy", "milk", "cheese", "butter"].map ofStr))
    else if wl == ofStr "non-vegetarian" then
      (acc.1 ++ ([ "meat", "chicken", "beef", "pork", "fish", "seafood", "lamb",
        "turkey"].map ofStr), acc.2)
    else if pyStartsWithAny ([ "non-", "anti-", "un-", "de-"].map ofStr) wl &&
        !(wl == ofStr "non-vegetarian") then
      let base := if (ofStr "non-").isPrefixOf wl then wl.drop 3 else wl.drop 2
      if base.isEmpty then acc else (acc.1, acc.2 ++ [base])
    else if pyEndsWithAny ([ "-free", "-based", "-style", "-friendly"].map ofStr) wl then
      if pyEndsWith (ofStr "-free") wl then
        let excluded := wl.take (wl.length - 5)
        if excluded.isEmpty then acc else (acc.1, acc.2 ++ [excluded])
      else if pyEndsWith (ofStr "-based") wl then
        let included := wl.take (wl.length - 6)
        if included.isEmpty then acc else (acc.1 ++ [included], acc.2)
      else acc
    else acc
  let res := words.foldl step (inc1 ++ inc2 ++ inc3, neg1 ++ neg2)
  if res.2.isEmpty && res.1.isEmpty then none else some res

/-- `filter_general_content` (source lines 1133-1156): drop every
period-separated sentence containing an exclusion term as a whole word. -/
def filter_general_content (content : PyStr)
    (pats : List PyStr × List PyStr) : PyStr :=
  let sentences := (pySplitChar '.' content).map pyStrip |>.filter (fun s => !s.isEmpty)
  let keep := sentences.filter (fun sentence =>
    !(pats.2.any (fun term => boundarySearch term (pyLower sentence))))
  match keep with
  | [] => []
  | [x] => x
  | x :: rest => x ++ (rest.map (fun r => '.' :: ' ' :: r)).flatten

end PDE

namespace PDE

/-- `[A-Z][a-z]+`: length of a capitalized word at the start of `t` (the inner
`[a-z]+` is greedy and forced maximal by every following context). -/
def capWordLen (t : PyStr) : Option Nat :=
  match t with
  | c :: rest =>
    if isUpperC c then
      let lo := rest.takeWhile isLowerC
      if lo.isEmpty then none else some (1 + lo.length)
    else none
  | [] => none

/-- Maximal extension of `(?:\s+[A-Z][a-z]+)*` from offset `n` of `t` (greedy;
the tails that follow it in the source patterns start with `:` or `•`, so
backtracking to a shorter chain can never succeed). -/
def capChainExtend (t : PyStr) (n : Nat) : Nat → Nat
  | 0 => n
  | fuel + 1 =>
    let r := t.drop n
    let sp := r.takeWhile isPySpace
    if sp.isEmpty then n
    else
      match capWordLen (r.drop sp.length) with
      | some w => capChainExtend t (n + sp.length + w) fuel
      | none => n

/-- Lookahead `\w+\s*•\s*Content:` (shorter `\w+` splits are defeated by the
following `•`). -/
def lookBulletContent (t : PyStr) : Bool :=
  let run := t.takeWhile isWordC
  !run.isEmpty &&
    (match (t.drop run.length).dropWhile isPySpace with
     | c :: t3 => c.toNat == 0x2022 && (ofStr "Content:").isPrefixOf (t3.dropWhile isPySpace)
     | [] => false)

/-- Lookahead `(?=\w+\s*Content:)`: here a shorter `\w+` can succeed because
`Content` itself consists of word characters, so the split is existential. -/
def lookWordContent (t : PyStr) : Bool :=
  let run := t.takeWhile isWordC
  (List.range run.length).any (fun k =>
    (ofStr "Content:").isPrefixOf ((t.drop (k + 1)).dropWhile isPySpace))

/-- Lookahead `(?=\b[A-Z][a-z]+(?:\s+[A-Z][a-z]+)*\s*•)`. -/
def lookCapBullet (s : PyStr) (i : Nat) : Bool :=
  wordBoundaryAt s i &&
    (let t := s.drop i
     match capWordLen t with
     | some w0 =>
       let n := capChainExtend t w0 t.length
       match (t.drop n).dropWhile isPySpace with
       | c :: _ => c.toNat == 0x2022
       | [] => false
     | none => false)

/-- A zero-width split point of the `re.split` in `filter_structured_content`
(source line 1086). -/
def structuredCutAt (s : PyStr) (i : Nat) : Bool :=
  lookBulletContent (s.drop i) || lookWordContent (s.drop i) || lookCapBullet s i

/-- `re.split` on a zero-width pattern: cut the string at every position where
the lookahead matches (a match at position 0 yields a leading empty piece). -/
def splitStructured (s : PyStr) : List PyStr :=
  let cuts := (List.range s.length).filter (structuredCutAt s)
  match cuts with
  | [] => [s]
  | c0 :: _ =>
    s.take c0 ::
      (List.zip cuts (cuts.drop 1 ++ [s.length])).map (fun ab => (s.take ab.2).drop ab.1)

/-- The `structural_markers` list (source line 1124). -/
def structuralMarkers : List PyStr :=
  [ "content:", "instructions:", "sections:", "method:"].map ofStr

/-- `filter_structured_content` (source lines 1083-1131).  The `persona_text`
parameter of the Python function is never read and is not modelled. -/
def filter_structured_content (content : PyStr)
    (pats : List PyStr × List PyStr) : PyStr :=
  let blocks := splitStructured content
  let keep := blocks.filter (fun block =>
    if (pyStrip block).isEmpty then false
    else
      let bl := pyLower block
      let excluded := pats.2.any (fun term =>
        boundarySearch term bl ||
          (pySplitChar '\n' bl).any (fun line =>
            (pyIn (ofStr "content:") (pyLower line) || pyIn [Char.ofNat 0x2022] line) &&
              pyIn term line))
      if excluded then false
      else if !pats.1.isEmpty then
        pats.1.any (fun t => boundarySearch t bl) ||
          structuralMarkers.any (fun m => pyIn m bl)
      else true)
  pyJoinSpace (keep.map pyStrip)

/-- `apply_persona_content_filter` (source lines 1064-1081). -/
def apply_persona_content_filter (content : PyStr) (kws : List PyStr) : PyStr :=
  let cl := pyLower content
  match extract_requirement_patterns (pyLower (pyJoinSpace kws)) with
  | none => content
  | some pats =>
    if pyIn (ofStr "• content:") cl || pyIn (ofStr "• instructions:") cl ||
        pyIn (ofStr "content:") cl then
      filter_structured_content content pats
    else filter_general_content content pats

/-- `re.sub(r'\n\s*\n', '\n', content)`: a newline, a greedy whitespace run
whose last viable character is again a newline, replaced by one newline. -/
def subBlankLinesGo : PyStr → Nat → PyStr
  | [], _ => []
  | _ :: rest, skip + 1 => subBlankLinesGo rest skip
  | c :: rest, 0 =>
    if c == '\n' then
      let R := rest.takeWhile isPySpace
      match (descRange R.length 1).findSome? (fun j =>
          if R.getD (j - 1) ' ' == '\n' then some j else none) with
      | some j => '\n' :: subBlankLinesGo rest j
      | none => '\n' :: subBlankLinesGo rest 0
    else c :: subBlankLinesGo rest 0

/-- Wrapper for the scan above. -/
def subBlankLines (s : PyStr) : PyStr := subBlankLinesGo s 0

/-- `re.sub(r'^Page \d+.*?\n', '', content, flags=re.MULTILINE)`: at a line
start, `Page ` plus digits plus the lazily shortest stretch up to and
including the next newline is deleted. -/
def subPageHeadersGo : PyStr → Bool → Nat → PyStr
  | [], _, _ => []
  | _ :: rest, atLS, skip + 1 => subPageHeadersGo rest atLS skip
  | c :: rest, atLS, 0 =>
    let m : Option Nat :=
      if atLS && (ofStr "Page ").isPrefixOf (c :: rest) then
        let t := (c :: rest).drop 5
        let ds := t.takeWhile isDigitC
        if ds.isEmpty then none
        else
          let t2 := t.drop ds.length
          let pre := t2.takeWhile (fun ch => !(ch == '\n'))
          if pre.length < t2.length then some (5 + ds.length + pre.length + 1) else none
      else none
    match m with
    | some n => subPageHeadersGo rest true (n - 1)
    | none => c :: subPageHeadersGo rest (c == '\n') 0

/-- Wrapper for the scan above: a deleted header ends at a newline, so the
position after it is again a line start. -/
def subPageHeaders (s : PyStr) (atLS : Bool) : PyStr := subPageHeadersGo s atLS 0

/-- `re.sub(r'^\d+\s*$', '', content, flags=re.MULTILINE)`: at a line start, a
digit run plus the longest whitespace stretch ending at a MULTILINE `$`
(end of string or just before a newline) is deleted. -/
def subNumericLinesGo : PyStr → Bool → Nat → PyStr
  | [], _, _ => []
  | _ :: rest, atLS, skip + 1 => subNumericLinesGo rest atLS skip
  | c :: rest, atLS, 0 =>
    let m : Option Nat :=
      if atLS then
        let t := c :: rest
        let ds := t.takeWhile isDigitC
        if ds.isEmpty then none
        else
          let t2 := t.drop ds.length
          let sp := t2.takeWhile isPySpace
          (descRange sp.length 0).findSome? (fun j =>
            let rem := t2.drop j
            if rem.isEmpty || rem.getD 0 ' ' == '\n' then some (ds.length + j) else none)
      else none
    match m with
    | some n =>
      subNumericLinesGo rest ((c :: rest).getD (n - 1) ' ' == '\n') (n - 1)
    | none => c :: subNumericLinesGo rest (c == '\n') 0

/-- Wrapper for the scan above. -/
def subNumericLines (s : PyStr) (atLS : Bool) : PyStr := subNumericLinesGo s atLS 0

/-- `re.sub(r'•\s*', '• ', content)`. -/
def subBulletSpaceGo : PyStr → Bool → PyStr
  | [], _ => []
  | c :: rest, skipWs =>
    if skipWs && isPySpace c then subBulletSpaceGo rest true
    else if c.toNat == 0x2022 then
      Char.ofNat 0x2022 :: ' ' :: subBulletSpaceGo rest true
    else c :: subBulletSpaceGo rest false

/-- Wrapper for the scan above. -/
def subBulletSpace (s : PyStr) : PyStr := subBulletSpaceGo s false

/-- `re.sub(r'\s*•\s*', ' • ', content)`. -/
def subSpaceBulletSpaceGo : PyStr → Nat → PyStr
  | [], _ => []
  | _ :: rest, skip + 1 => subSpaceBulletSpaceGo rest skip
  | c :: rest, 0 =>
    let sp := (c :: rest).takeWhile isPySpace
    if (c :: rest).getD sp.length ' ' == Char.ofNat 0x2022 then
      let after := ((c :: rest).drop (sp.length + 1)).takeWhile isPySpace
      ' ' :: Char.ofNat 0x2022 :: ' ' ::
        subSpaceBulletSpaceGo rest (sp.length + after.length)
    else c :: subSpaceBulletSpaceGo rest 0

/-- Wrapper for the scan above. -/
def subSpaceBulletSpace (s : PyStr) : PyStr := subSpaceBulletSpaceGo s 0

/-- `re.sub(r'o\s+', '○ ', content)`. -/
def subOListGo : PyStr → Bool → PyStr
  | [], _ => []
  | c :: rest, skipWs =>
    if skipWs && isPySpace c then subOListGo rest true
    else if c == 'o' && headIsSpace rest then
      Char.ofNat 0x25CB :: ' ' :: subOListGo rest true
    else c :: subOListGo rest false

/-- Wrapper for the scan above. -/
def subOList (s : PyStr) : PyStr := subOListGo s false

/-- The `logical_breaks` list of the truncation block (source line 1039). -/
def breakPoints : List PyStr :=
  [ofStr " • Instructions:", ofStr " • Ingredients:", ofStr ". ", ofStr "• "]

/-- The truncation block of `clean_content_block` (source lines 1036-1048):
cut to 1000 characters, preferring the last logical break past 70 percent. -/
def truncateContent (content : PyStr) : PyStr :=
  if content.length > 1000 then
    let truncated := content.take 1000
    let chosen :=
      match breakPoints.findSome? (fun bp =>
        match pyRfind bp truncated with
        | some lb => if lb > 700 then some (content.take (lb + bp.length)) else none
        | none => none) with
      | some t => t
      | none => truncated
    pyStrip chosen
  else content

/-- The punctuation class `[.,:;]`. -/
def isPunct4 (c : Char) : Bool := c == '.' || c == ',' || c == ':' || c == ';'

/-- `re.sub(r'\s+([.,:;])', r'\1', content)`. -/
def subWsPunctGo : PyStr → Nat → PyStr
  | [], _ => []
  | _ :: rest, skip + 1 => subWsPunctGo rest skip
  | c :: rest, 0 =>
    let sp := (c :: rest).takeWhile isPySpace
    if !sp.isEmpty && isPunct4 ((c :: rest).getD sp.length ' ') then
      (c :: rest).getD sp.length ' ' :: subWsPunctGo rest sp.length
    else c :: subWsPunctGo rest 0

/-- Wrapper for the scan above. -/
def subWsPunct (s : PyStr) : PyStr := subWsPunctGo s 0

/-- `re.sub(r'([.,:;])\s*([.,:;])', r'\1\2', content)`. -/
def subPunctPairGo : PyStr → Nat → PyStr
  | [], _ => []
  | _ :: rest, skip + 1 => subPunctPairGo rest skip
  | c :: rest, 0 =>
    if isPunct4 c then
      let sp := rest.takeWhile isPySpace
      if isPunct4 (rest.getD sp.length ' ') then
        c :: rest.getD sp.length ' ' :: subPunctPairGo rest (sp.length + 1)
      else c :: subPunctPairGo rest 0
    else c :: subPunctPairGo rest 0

/-- Wrapper for the scan above. -/
def subPunctPair (s : PyStr) : PyStr := subPunctPairGo s 0

/-- `re.sub(r'([a-z])\s+([A-Z][a-z]+(?:\s+[A-Z][a-z]+)*)\s*:', r'\1. \2:', content)`. -/
def subLowerCapColonGo : PyStr → Nat → PyStr
  | [], _ => []
  | _ :: rest, skip + 1 => subLowerCapColonGo rest skip
  | c :: rest, 0 =>
    let m : Option (PyStr × Nat) :=
      if isLowerC c then
        let sp1 := rest.takeWhile isPySpace
        if sp1.isEmpty then none
        else
          let t2 := rest.drop sp1.length
          match capWordLen t2 with
          | some w0 =>
            let n := capChainExtend t2 w0 t2.length
            let tail := t2.drop n
            let sp2 := tail.takeWhile isPySpace
            if tail.getD sp2.length ' ' == ':' then
              some (t2.take n, sp1.length + n + sp2.length + 1)
            else none
          | none => none
      else none
    match m with
    | some (grp, n) =>
      c :: '.' :: ' ' :: (grp ++ ':' :: subLowerCapColonGo rest n)
    | none => c :: subLowerCapColonGo rest 0

/-- Wrapper for the scan above. -/
def subLowerCapColon (s : PyStr) : PyStr := subLowerCapColonGo s 0

/-- `re.sub(r'([a-z])\s+(Instructions|Ingredients):', r'\1. \2:', content)`. -/
def subLowerInstrGo : PyStr → Nat → PyStr
  | [], _ => []
  | _ :: rest, skip + 1 => subLowerInstrGo rest skip
  | c :: rest, 0 =>
    let m : Option (PyStr × Nat) :=
      if isLowerC c then
        let sp1 := rest.takeWhile isPySpace
        if sp1.isEmpty then none
        else
          let t2 := rest.drop sp1.length
          if (ofStr "Instructions:").isPrefixOf t2 then
            some (ofStr "Instructions", sp1.length + 13)
          else if (ofStr "Ingredients:").isPrefixOf t2 then
            some (ofStr "Ingredients", sp1.length + 12)
          else none
      else none
    match m with
    | some (w, n) => c :: '.' :: ' ' :: (w ++ ':' :: subLowerInstrGo rest n)
    | none => c :: subLowerInstrGo rest 0

/-- Wrapper for the scan above. -/
def subLowerInstr (s : PyStr) : PyStr := subLowerInstrGo s 0

/-- `re.sub(r'([a-z])\s+([A-Z][a-z]+\s+[A-Z][a-z]+)', r'\1. \2', content)`. -/
def subLowerCapCapGo : PyStr → Nat → PyStr
  | [], _ => []
  | _ :: rest, skip + 1 => subLowerCapCapGo rest skip
  | c :: rest, 0 =>
    let m : Option (PyStr × Nat) :=
      if isLowerC c then
        let sp1 := rest.takeWhile isPySpace
        if sp1.isEmpty then none
        else
          let t2 := rest.drop sp1.length
          match capWordLen t2 with
          | some w1 =>
            let t3 := t2.drop w1
            let sp2 := t3.takeWhile isPySpace
            if sp2.isEmpty then none
            else
              match capWordLen (t3.drop sp2.length) with
              | some w2 =>
                some (t2.take (w1 + sp2.length + w2), sp1.length + w1 + sp2.length + w2)
              | none => none
          | none => none
      else none
    match m with
    | some (grp, n) => c :: '.' :: ' ' :: (grp ++ subLowerCapCapGo rest n)
    | none => c :: subLowerCapCapGo rest 0

/-- Wrapper for the scan above. -/
def subLowerCapCap (s : PyStr) : PyStr := subLowerCapCapGo s 0

/-- `re.sub(r'\s*:\s*', ': ', content)`. -/
def subColonSpacingGo : PyStr → Nat → PyStr
  | [], _ => []
  | _ :: rest, skip + 1 => subColonSpacingGo rest skip
  | c :: rest, 0 =>
    let sp := (c :: rest).takeWhile isPySpace
    if (c :: rest).getD sp.length ' ' == ':' then
      let after := ((c :: rest).drop (sp.length + 1)).takeWhile isPySpace
      ':' :: ' ' :: subColonSpacingGo rest (sp.length + after.length)
    else c :: subColonSpacingGo rest 0

/-- Wrapper for the scan above. -/
def subColonSpacing (s : PyStr) : PyStr := subColonSpacingGo s 0

/-- The normalization and persona-filtering stages of `clean_content_block`
(source lines 1018-1033), up to but excluding the truncation block. -/
def contentNormalized (content : PyStr) (persona_keywords : List PyStr) : PyStr :=
  let c := collapseWs content
  let c := subBlankLines c
  let c := subPageHeaders c true
  let c := subNumericLines c true
  let c := subBulletSpace c
  let c := subSpaceBulletSpace c
  let c := subOList c
  if persona_keywords.isEmpty then c else apply_persona_content_filter c persona_keywords

/-- `clean_content_block` up to and including the truncation block
(source lines 1018-1048). -/
def contentTruncated (content : PyStr) (persona_keywords : List PyStr) : PyStr :=
  truncateContent (contentNormalized content persona_keywords)

/-- The punctuation and spacing repairs after truncation
(source lines 1050-1062). -/
def contentRepairs (c : PyStr) : PyStr :=
  pyStrip (subColonSpacing (subLowerCapCap (subLowerInstr (subLowerCapColon
    (subPunctPair (subWsPunct c))))))

/-- `clean_content_block` (source lines 1016-1062): the full cleaning,
filtering, truncation and repair pipeline, in source order. -/
def clean_content_block (content : PyStr) (persona_keywords : List PyStr) : PyStr :=
  contentRepairs (contentTruncated content persona_keywords)

end PDE

namespace PDE

/-! ### Selection and diversification (source lines 1495-1531) and the batch
loop (`main.py` lines 41-53) -/

/-- One formatted section dict (source lines 1437-1443) after the global
re-ranking of line 1507 attached its `global_relevance`. -/
structure SectionRec where
  document : PyStr
  section_title : PyStr
  importance_rank : Nat
  page_number : Nat
  global_relevance : ℚ
  deriving DecidableEq, Repr

/-- Python's stable descending sort by `global_relevance` (source line 1509). -/
def sectionDescRel (a b : SectionRec) : Prop := b.global_relevance ≤ a.global_relevance

instance : DecidableRel sectionDescRel := fun a b =>
  inferInstanceAs (Decidable (b.global_relevance ≤ a.global_relevance))

instance : IsTotal SectionRec sectionDescRel := ⟨fun a b => le_total b.global_relevance a.global_relevance⟩

instance : IsTrans SectionRec sectionDescRel := ⟨fun _ _ _ h1 h2 => le_trans h2 h1⟩

/-- `all_sections.sort(key=lambda x: x['global_relevance'], reverse=True)`. -/
def sortSections (l : List SectionRec) : List SectionRec :=
  List.insertionSort sectionDescRel l

/-- The first diversification pass (source lines 1512-1520): walk the ranked
sections, taking a section whenever its document is new and fewer than 5 have
been chosen. -/
def firstPassGo : List SectionRec → List PyStr → List SectionRec → List SectionRec
  | [], _, acc => acc.reverse
  | s :: rest, used, acc =>
    if s.document ∉ used ∧ acc.length < 5 then
      firstPassGo rest (s.document :: used) (s :: acc)
    else firstPassGo rest used acc

/-- The first diversification pass on an (already ranked) section list. -/
def firstPass (l : List SectionRec) : List SectionRec := firstPassGo l [] []

/-- The second pass (source lines 1522-1526): top up to 5 with the next best
remaining sections regardless of document. -/
def secondPass (all : List SectionRec) (diverse : List SectionRec) : List SectionRec :=
  if diverse.length < 5 then
    all.foldl (fun d s => if s ∉ d ∧ d.length < 5 then d ++ [s] else d) diverse
  else diverse

/-- The final section dict shape after rank renumbering drops
`global_relevance` (source lines 1528-1531). -/
structure FinalSection where
  document : PyStr
  section_title : PyStr
  importance_rank : Nat
  page_number : Nat
  deriving DecidableEq, Repr

/-- The whole section selection of `process_collection` (source lines
1504-1531): rank globally, diversify in two passes, renumber 1-based. -/
def diversifySections (all : List SectionRec) : List FinalSection :=
  let ranked := sortSections all
  let d2 := secondPass ranked (firstPass ranked)
  (d2.take 5).enum.map (fun is =>
    { document := is.2.document
      section_title := is.2.section_title
      importance_rank := is.1 + 1
      page_number := is.2.page_number })

/-- Number of distinct source documents among a section list. -/
def distinctDocs (l : List SectionRec) : Nat :=
  (l.map SectionRec.document).toFinset.card

/-- Modelled view of one collection directory as `process_collection` reads
it: whether `challenge1b_input.json` exists, and the PDF file names.  File
contents beyond existence are irrelevant to the claims settled here. -/
structure Collection where
  name : PyStr
  hasMetadata : Bool
  pdfs : List PyStr
  deriving DecidableEq, Repr

/-- The effect skeleton of `process_collection` (source lines 1464-1585): with
no `challenge1b_input.json` it logs and returns before touching anything else
(lines 1471-1474), with no PDFs it returns after reading the metadata (lines
1486-1489); otherwise exactly one output file
`collection_name + "_output.json"` is written (lines 1578-1583).  The function
returns the name of the file written, `none` when nothing is written. -/
def process_collection_model (c : Collection) : Option PyStr :=
  if !c.hasMetadata then none
  else if c.pdfs.isEmpty then none
  else some (c.name ++ ofStr "_output.json")

/-- The batch loop of `main` (`main.py` lines 41-53): every subdirectory is a
collection; the model's `process_collection` never raises (in particular the
missing-metadata path returns normally), so each collection increments
`collections_processed`.  Result: the written output files in order, and the
final `processed/total` summary pair. -/
def mainBatch (cols : List Collection) : List PyStr × (Nat × Nat) :=
  (cols.filterMap process_collection_model, (cols.length, cols.length))

end PDE

namespace PDE

/-! ### Concrete inputs used by counterexamples and witnesses -/

/-- A one-page document whose only line is the single word `Zebra` in the
single font size 12. -/
def zebraDoc : List PageIn :=
  [{ blocks := [[[{ text := ofStr "Zebra", size := 12, font := ofStr "F" }]]],
     text := ofStr "Zebra" }]

/-- The candidate the isolation strategy produces for `zebraDoc`. -/
def zebraCandidate : Candidate :=
  { title := ofStr "Zebra", page := 1, confidence := 3/5,
    method := ofStr "isolation", original_text := ofStr "Zebra", relevance := 1/2 }

/-- A document whose only block is `&Data Mining`: the one letter-free prefix
shape that survives the validator, used to exercise the fallback path. -/
def ampDoc : List PageIn :=
  [{ blocks := [[[{ text := ofStr "&Data Mining", size := 12, font := ofStr "F" }]]],
     text := [] }]

/-- The candidate `identify_titles_by_patterns` produces for `ampDoc`. -/
def ampCandidate : Candidate :=
  { title := ofStr "&Data Mining", page := 1, confidence := 4/5,
    method := ofStr "pattern_fallback", original_text := ofStr "&Data Mining",
    relevance := 1/2 }

/-- A document with one page whose block and line lists carry no spans. -/
def spanlessDoc : List PageIn :=
  [{ blocks := [[[], []], [[]]], text := ofStr "some page text" }]

/-- Six ranked sections over five distinct documents, for the diversification
witness. -/
def sampleSections : List SectionRec :=
  [ { document := ofStr "d1", section_title := ofStr "T1", importance_rank := 1,
      page_number := 1, global_relevance := 9/10 },
    { document := ofStr "d1", section_title := ofStr "T2", importance_rank := 2,
      page_number := 2, global_relevance := 8/10 },
    { document := ofStr "d2", section_title := ofStr "T3", importance_rank := 1,
      page_number := 1, global_relevance := 7/10 },
    { document := ofStr "d3", section_title := ofStr "T4", importance_rank := 1,
      page_number := 3, global_relevance := 6/10 },
    { document := ofStr "d4", section_title := ofStr "T5", importance_rank := 1,
      page_number := 1, global_relevance := 5/10 },
    { document := ofStr "d5", section_title := ofStr "T6", importance_rank := 1,
      page_number := 2, global_relevance := 4/10 } ]

/-- A healthy collection directory. -/
def colOk : Collection :=
  { name := ofStr "c1", hasMetadata := true, pdfs := [ofStr "a.pdf"] }

/-- A collection directory with PDFs but no `challenge1b_input.json`. -/
def colNoMeta : Collection :=
  { name := ofStr "c2", hasMetadata := false, pdfs := [ofStr "b.pdf"] }

/-- Another healthy collection directory. -/
def colOk2 : Collection :=
  { name := ofStr "c3", hasMetadata := true, pdfs := [ofStr "c.pdf"] }

end PDE

namespace PDE

set_option maxRecDepth 1000000

/-! ### Claim theorems -/

/-- C10: with an empty persona keyword list, `calculate_title_relevance`
returns exactly 0.5 for every title and `calculate_content_relevance` returns
exactly 0.3 for every content string. -/
theorem empty_keywords_default_scores (title content : PyStr) :
    calculate_title_relevance title [] = some 0.5 ∧
    calculate_content_relevance content [] = 0.3 :=
  ⟨rfl, rfl⟩

/-- C1 counterexample: on the empty title with a non-empty keyword list the
Python code raises `IndexError` at `title[0].isupper()` (line 704) instead of
returning a score; the embedding returns `none`. -/
theorem title_relevance_raises_on_empty_title :
    calculate_title_relevance [] [ofStr "chef"] = none := by
  with_unfolding_all decide

/-- C7 counterexample: `extract_clean_title` is not idempotent.  Cleaning
`Learning Objectives` yields `Course Learning Objectives` (dictionary entry),
and cleaning that again fires the suffix rule of `enhance_generic_titles`,
yielding `Course Objectives`. -/
theorem clean_title_not_idempotent :
    extract_clean_title (extract_clean_title (ofStr "Learning Objectives")) ≠
      extract_clean_title (ofStr "Learning Objectives") := by
  decide

/-- C7 (amended): `extract_clean_title` is idempotent on its fixed points;
re-cleaning can otherwise change a cleaned title, as the counterexample shows. -/
theorem clean_title_idempotent_on_fixed_points (t : PyStr)
    (h : extract_clean_title t = t) :
    extract_clean_title (extract_clean_title t) = extract_clean_title t := by
  rw [h]; exact h

/-- Witness for the amended C7 theorem at the fixed point `Course Objectives`. -/
theorem clean_title_idempotent_on_fixed_points_witness :
    extract_clean_title (ofStr "Course Objectives") = ofStr "Course Objectives" ∧
    extract_clean_title (extract_clean_title (ofStr "Course Objectives")) =
      extract_clean_title (ofStr "Course Objectives") :=
  ⟨by decide, clean_title_idempotent_on_fixed_points (ofStr "Course Objectives") (by decide)⟩

/-- C3 counterexample: for the persona keyword list `vegetarian`, content
containing `chicken` does NOT score strictly lower than the same content with
`lentil`: `calculate_content_relevance` has no vegetarian-specific scoring
(only a `non-vegetarian` meat boost), so the two scores are equal. -/
theorem content_relevance_chicken_not_below_lentil :
    ¬ (calculate_content_relevance (ofStr "chicken") [ofStr "vegetarian"] <
        calculate_content_relevance (ofStr "lentil") [ofStr "vegetarian"]) := by
  with_unfolding_all decide

/-- C9 counterexample: `clean_content_block` can return more than 1000
characters: on 505 colons the truncation step does not fire (length 505), but
the final `\s*:\s*` spacing repair doubles every colon, producing 1009
characters. -/
theorem clean_content_block_exceeds_limit :
    1000 < (clean_content_block (List.replicate 505 ':') []).length := by
  with_unfolding_all decide

/-- C6 counterexample: a document with exactly one font size takes the normal
path of `identify_section_titles_advanced` (its `font_analysis` is never
empty), where the isolation strategy also runs: on `zebraDoc` the only
returned candidate has method `isolation`, not `pattern`, and the fallback
`identify_titles_by_patterns` is never invoked. -/
theorem single_font_doc_uses_isolation :
    ((extract_complete_document_structure zebraDoc).font_analysis.map
        (fun fa => fa.all_sizes)) = some [12] ∧
    identify_section_titles_advanced (extract_complete_document_structure zebraDoc) [] =
      some [{ cand := zebraCandidate, combined_score := some (11/10) }] ∧
    zebraCandidate.method ≠ ofStr "pattern" ∧
    zebraCandidate.method ≠ ofStr "pattern_fallback" := by
  refine ⟨?_, ?_, ?_, ?_⟩
  · with_unfolding_all decide
  · with_unfolding_all decide
  · decide
  · decide

end PDE

namespace PDE

/-- C8: a collection directory without `challenge1b_input.json` makes
`process_collection` return normally without writing an output file, the batch
loop continues with the surrounding collections unchanged, and the
processed/total summary is still emitted (the model never raises, so the
skipped collection still counts as processed, matching the code). -/
theorem missing_metadata_skips_collection (pre post : List Collection)
    (c : Collection) (h : c.hasMetadata = false) :
    process_collection_model c = none ∧
    (pre ++ c :: post).filterMap process_collection_model =
      pre.filterMap process_collection_model ++
        post.filterMap process_collection_model ∧
    (mainBatch (pre ++ c :: post)).2 =
      (pre.length + post.length + 1, pre.length + post.length + 1) := by
  have hc : process_collection_model c = none := by
    simp [process_collection_model, h]
  refine ⟨hc, ?_, ?_⟩
  · simp [List.filterMap_append, List.filterMap_cons, hc]
  · simp only [mainBatch, List.length_append, List.length_cons, Prod.mk.injEq]
    omega

/-- Witness for the C8 theorem on a concrete three-collection batch. -/
theorem missing_metadata_skips_collection_witness :
    process_collection_model colNoMeta = none ∧
    ([colOk] ++ colNoMeta :: [colOk2]).filterMap process_collection_model =
      [colOk].filterMap process_collection_model ++
        [colOk2].filterMap process_collection_model ∧
    (mainBatch ([colOk] ++ colNoMeta :: [colOk2])).2 =
      ([colOk].length + [colOk2].length + 1, [colOk].length + [colOk2].length + 1) :=
  missing_metadata_skips_collection [colOk] [colOk2] colNoMeta rfl

end PDE

namespace PDE

/-- Auxiliary: a successful `findSome?` comes from some list element. -/
theorem findSome?_exists {α β : Type} (f : α → Option β) (l : List α) (b : β)
    (h : l.findSome? f = some b) : ∃ a ∈ l, f a = some b := by
  induction l with
  | nil => simp [List.findSome?] at h
  | cons x xs ih =>
    rw [List.findSome?_cons] at h
    cases hx : f x with
    | some v => rw [hx] at h; exact ⟨x, List.mem_cons_self x xs, hx.trans h⟩
    | none => rw [hx] at h; obtain ⟨a, ha, hfa⟩ := ih h; exact ⟨a, List.mem_cons_of_mem _ ha, hfa⟩

/-- Auxiliary: stripping never lengthens a string. -/
theorem pyStrip_length_le (s : PyStr) : (pyStrip s).length ≤ s.length := by
  have h1 : (pyLstrip s).length ≤ s.length :=
    List.IsSuffix.length_le (List.dropWhile_suffix _)
  have h2 : (pyRstrip (pyLstrip s)).length ≤ (pyLstrip s).length := by
    simpa [pyRstrip] using
      List.IsSuffix.length_le (List.dropWhile_suffix (l := (pyLstrip s).reverse) isPySpace)
  exact le_trans h2 h1

/-- Auxiliary: a successful `rfind` leaves room for the pattern. -/
theorem pyRfind_le (p s : PyStr) (lb : Nat) (h : pyRfind p s = some lb) :
    lb + p.length ≤ s.length := by
  unfold pyRfind at h
  have hmem := List.mem_of_mem_getLast? h
  rw [List.mem_filter] at hmem
  obtain ⟨hr, hp⟩ := hmem
  rw [List.mem_range] at hr
  have hpre : p <+: s.drop lb := List.isPrefixOf_iff_prefix.mp hp
  have := List.IsPrefix.length_le hpre
  rw [List.length_drop] at this
  omega

/-- Auxiliary: the truncation block never returns more than 1000 characters. -/
theorem truncateContent_length_le (s : PyStr) : (truncateContent s).length ≤ 1000 := by
  unfold truncateContent
  split
  · next hlen =>
    dsimp only
    split
    · next t hfs =>
      obtain ⟨bp, _, hbp⟩ := findSome?_exists _ _ _ hfs
      refine le_trans (pyStrip_length_le _) ?_
      split at hbp
      · next lb hrf =>
        split at hbp
        · next hgt =>
          have hb := pyRfind_le bp (s.take 1000) lb hrf
          rw [List.length_take] at hb
          have hle : lb + bp.length ≤ 1000 := le_trans hb (min_le_left _ _)
          injection hbp with hbp
          rw [← hbp]
          exact le_trans (List.length_take_le _ _) hle
        · exact absurd hbp (by simp)
      · exact absurd hbp (by simp)
    · next hfs =>
      exact le_trans (pyStrip_length_le _) (List.length_take_le _ _)
  · next hlen => omega

/-- C9 (amended): the content after the truncation block of
`clean_content_block` is at most 1000 characters long; only the subsequent
punctuation and spacing repairs can exceed the limit, as the counterexample
shows. -/
theorem content_truncation_bounded (content : PyStr) (kws : List PyStr) :
    (contentTruncated content kws).length ≤ 1000 :=
  truncateContent_length_le (contentNormalized content kws)

end PDE

namespace PDE

/-- C5: a document none of whose lines carries any text span yields the
default font profile: `most_common_size = 12.0`, `all_sizes = [12.0]`,
`size_distribution` the single entry `12.0 : 1` (and no grouped blocks), and
the extraction returns normally (the embedding is total). -/
theorem empty_spans_default_font_profile (doc : List PageIn)
    (h : ∀ p ∈ doc, ∀ b ∈ p.blocks, ∀ line ∈ b, line = ([] : List Span)) :
    (extract_complete_document_structure doc).font_analysis =
      some { most_common_size := 12, all_sizes := [12],
             size_distribution := [(12, 1)], font_blocks := [] } := by
  unfold extract_complete_document_structure
  dsimp only
  have hfonts :
      ((doc.enum.map (fun pi =>
        (({ number := pi.1 + 1, text := pi.2.text,
            blocks := ((pi.2.blocks.flatten.map (processLine pi.1)).filterMap Prod.snd) } :
              PageRec),
          ((pi.2.blocks.flatten.map (processLine pi.1)).map Prod.fst).flatten))).map
          Prod.snd).flatten = [] := by
    rw [List.flatten_eq_nil_iff]
    intro fonts hmem
    simp only [List.mem_map] at hmem
    obtain ⟨pd, hpd, rfl⟩ := hmem
    obtain ⟨ip, hip, rfl⟩ := hpd
    rw [List.flatten_eq_nil_iff]
    intro x hx
    simp only [List.mem_map] at hx
    obtain ⟨pr, hpr, rfl⟩ := hx
    have hmem2 := List.mem_enum hip
    have hpage : ip.2 ∈ doc := by
      obtain ⟨hlt, heq⟩ := hmem2
      rw [heq]
      exact List.getElem_mem hlt
    obtain ⟨ln, hln, hpl⟩ := hpr
    rw [List.mem_flatten] at hln
    obtain ⟨b, hb, hlb⟩ := hln
    have hz : ln = ([] : List Span) := h ip.2 hpage b hb ln hlb
    rw [← hpl, hz]
    rfl
  rw [hfonts]
  rfl

/-- Witness for the C5 theorem on a concrete page with empty span lists. -/
theorem empty_spans_default_font_profile_witness :
    (extract_complete_document_structure spanlessDoc).font_analysis =
      some { most_common_size := 12, all_sizes := [12],
             size_distribution := [(12, 1)], font_blocks := [] } :=
  empty_spans_default_font_profile spanlessDoc (by decide)

end PDE

namespace PDE

/-- A present optional structure bonus, clamped, lands in the unit interval. -/
theorem map_clamp01 (o : Option ℚ) (x : ℚ) (ho : o ≠ none) :
    ∃ s, o.map (fun sb => max 0 (min (x + sb) 1)) = some s ∧ 0 ≤ s ∧ s ≤ 1 := by
  cases o with
  | none => exact absurd rfl ho
  | some sb =>
    exact ⟨_, rfl, le_max_left _ _, max_le (by norm_num) (min_le_right _ _)⟩

/-- C1 (amended): for every NON-EMPTY title string the title relevance is a
score in the unit interval, and for every content string the content
relevance lies in the unit interval; on the empty title with non-empty
keywords the code instead raises, as the counterexample records. -/
theorem relevance_scores_bounded (title content : PyStr) (kws : List PyStr)
    (h : title ≠ []) :
    (∃ s, calculate_title_relevance title kws = some s ∧ 0 ≤ s ∧ s ≤ 1) ∧
    0 ≤ calculate_content_relevance content kws ∧
    calculate_content_relevance content kws ≤ 1 := by
  constructor
  · unfold calculate_title_relevance
    split
    · exact ⟨0.5, rfl, by norm_num, by norm_num⟩
    · obtain ⟨c, rest, rfl⟩ : ∃ c rest, title = c :: rest := by
        cases title with
        | nil => exact absurd rfl h
        | cons c rest => exact ⟨c, rest, rfl⟩
      dsimp only
      refine map_clamp01 _ _ ?_
      split
      · exact fun hco => Option.noConfusion hco
      · exact fun hco => Option.noConfusion hco
  · unfold calculate_content_relevance
    split
    · constructor <;> norm_num
    · dsimp only
      constructor
      · refine le_min ?_ (by norm_num)
        split_ifs <;> positivity
      · exact min_le_right _ _

/-- Witness for the amended C1 theorem at a concrete title, content and
keyword list. -/
theorem relevance_scores_bounded_witness :
    (∃ s, calculate_title_relevance (ofStr "Zebra") [ofStr "chef"] = some s ∧
      0 ≤ s ∧ s ≤ 1) ∧
    0 ≤ calculate_content_relevance (ofStr "soup") [ofStr "chef"] ∧
    calculate_content_relevance (ofStr "soup") [ofStr "chef"] ≤ 1 :=
  relevance_scores_bounded (ofStr "Zebra") (ofStr "soup") [ofStr "chef"] (by decide)

end PDE

namespace PDE

/-- Candidates built by `mkCand` carry the method they were given. -/
theorem mkCand_method (t : PyStr) (pg : Nat) (cf : ℚ) (m o : PyStr)
    (kws : List PyStr) (c : Candidate) (h : mkCand t pg cf m o kws = some c) :
    c.method = m := by
  unfold mkCand at h
  rcases Option.map_eq_some'.mp h with ⟨r, -, rfl⟩
  rfl

/-- The fallback pattern loop only ever appends `pattern_fallback` candidates. -/
theorem tryPatternsFallback_method (ps : List ((PyStr → Option PyStr) × ℚ))
    (b : TextBlock) (text : PyStr) (kws : List PyStr) :
    ∀ acc acc', tryPatternsFallback ps b text kws acc = some acc' →
    (∀ c ∈ acc, c.method = ofStr "pattern_fallback") →
    ∀ c ∈ acc', c.method = ofStr "pattern_fallback" := by
  induction ps with
  | nil =>
    intro acc acc' h hacc
    cases h
    exact hacc
  | cons p rest ih =>
    intro acc acc' h hacc
    obtain ⟨pm, base⟩ := p
    rcases hpm : pm text with _ | g <;> simp only [tryPatternsFallback, hpm] at h
    · exact ih acc acc' h hacc
    · by_cases hv : is_valid_section_title (extract_clean_title g) = true
      · rw [if_pos hv] at h
        rcases hmk : mkCand (extract_clean_title g) b.page base
            (ofStr "pattern_fallback") text kws with _ | c0 <;> rw [hmk] at h
        · exact Option.noConfusion h
        · replace h : tryPatternsFallback rest b text kws (acc ++ [c0]) = some acc' := h
          refine ih _ _ h ?_
          intro c hc
          rcases List.mem_append.mp hc with hc | hc
          · exact hacc c hc
          · rw [List.mem_singleton.mp hc]
            exact mkCand_method _ _ _ _ _ _ _ hmk
      · rw [if_neg hv] at h
        exact ih acc acc' h hacc

/-- The whole fallback fold only ever accumulates `pattern_fallback`
candidates. -/
theorem fallbackFold_method (kws : List PyStr) :
    ∀ (bs : List TextBlock) (acc acc' : List Candidate),
    bs.foldlM (fun acc b =>
      let text := pyStrip b.text
      if text.length < 3 || text.length > 80 then some acc
      else tryPatternsFallback titlePatternTable b text kws acc) acc = some acc' →
    (∀ c ∈ acc, c.method = ofStr "pattern_fallback") →
    ∀ c ∈ acc', c.method = ofStr "pattern_fallback" := by
  intro bs
  induction bs with
  | nil =>
    intro acc acc' h hacc
    rw [List.foldlM_nil] at h
    cases h
    exact hacc
  | cons b bs ih =>
    intro acc acc' h hacc
    rw [List.foldlM_cons] at h
    dsimp only at h
    split at h
    · exact ih acc acc' h hacc
    · rcases hmid : tryPatternsFallback titlePatternTable b (pyStrip b.text) kws acc
          with _ | mid <;> rw [hmid] at h
      · exact Option.noConfusion h
      · exact ih mid acc' h
          (tryPatternsFallback_method titlePatternTable b (pyStrip b.text) kws
            acc mid hmid hacc)

/-- C6 (amended): whenever `identify_titles_by_patterns` returns, its result
has at most 8 candidates, every candidate carries method `pattern_fallback`,
and the list is sorted by descending `(relevance, confidence)`.  The main path
of `identify_section_titles_advanced` never reaches this fallback, as the
counterexample records. -/
theorem fallback_titles_capped_and_sorted (s : DocStructure) (kws : List PyStr)
    (cs : List Candidate) (h : identify_titles_by_patterns s kws = some cs) :
    cs.length ≤ 8 ∧ (∀ c ∈ cs, c.method = ofStr "pattern_fallback") ∧
    List.Pairwise fallbackRel cs := by
  unfold identify_titles_by_patterns at h
  rcases Option.map_eq_some'.mp h with ⟨cs0, hfold, rfl⟩
  refine ⟨List.length_take_le _ _, ?_, ?_⟩
  · intro c hc
    have hc' : c ∈ List.insertionSort fallbackRel cs0 :=
      (List.take_sublist 8 _).subset hc
    have hc'' : c ∈ cs0 := (List.perm_insertionSort fallbackRel cs0).mem_iff.mp hc'
    exact fallbackFold_method kws s.all_text_blocks [] cs0 hfold
      (by intro x hx; cases hx) c hc''
  · exact List.Pairwise.sublist (List.take_sublist 8 _)
      (List.sorted_insertionSort fallbackRel cs0)

/-- Witness for the amended C6 theorem: on `ampDoc` with no keywords the
fallback returns exactly `[ampCandidate]`. -/
theorem fallback_titles_capped_and_sorted_witness :
    [ampCandidate].length ≤ 8 ∧
    (∀ c ∈ [ampCandidate], c.method = ofStr "pattern_fallback") ∧
    List.Pairwise fallbackRel [ampCandidate] :=
  fallback_titles_capped_and_sorted (extract_complete_document_structure ampDoc)
    [] [ampCandidate] (by with_unfolding_all decide)

end PDE

namespace PDE

/-- Entries of the dedup pass: the score is confidence + relevance, the
candidate comes from the input, and its normalized key is new and longer
than 2. -/
theorem dedupCandidates_mem : ∀ (cs : List Candidate) (seen : List PyStr)
    (p : Candidate × ℚ), p ∈ dedupCandidates cs seen →
    p.2 = p.1.confidence + p.1.relevance ∧ p.1 ∈ cs ∧
    pyStrip (pyLower p.1.title) ∉ seen ∧ 2 < (pyStrip (pyLower p.1.title)).length := by
  intro cs
  induction cs with
  | nil => intro seen p hp; cases hp
  | cons c rest ih =>
    intro seen p hp
    simp only [dedupCandidates] at hp
    split at hp
    · rename_i hcond
      rcases List.mem_cons.mp hp with rfl | hp'
      · exact ⟨rfl, List.mem_cons_self _ _, hcond.1, hcond.2⟩
      · obtain ⟨h1, h2, h3, h4⟩ := ih _ p hp'
        exact ⟨h1, List.mem_cons_of_mem _ h2,
          fun hmem => h3 (List.mem_cons_of_mem _ hmem), h4⟩
    · obtain ⟨h1, h2, h3, h4⟩ := ih _ p hp
      exact ⟨h1, List.mem_cons_of_mem _ h2, h3, h4⟩

/-- The dedup pass emits pairwise-distinct normalized title keys. -/
theorem dedupCandidates_keys_distinct : ∀ (cs : List Candidate) (seen : List PyStr),
    List.Pairwise (fun p q : Candidate × ℚ =>
      pyStrip (pyLower p.1.title) ≠ pyStrip (pyLower q.1.title))
      (dedupCandidates cs seen) := by
  intro cs
  induction cs with
  | nil => intro seen; exact List.Pairwise.nil
  | cons c rest ih =>
    intro seen
    simp only [dedupCandidates]
    split
    · refine List.Pairwise.cons ?_ (ih _)
      intro q hq he
      have h3 := (dedupCandidates_mem rest (pyStrip (pyLower c.title) :: seen) q hq).2.2.1
      exact h3 (List.mem_cons.mpr (Or.inl he.symm))
    · exact ih seen

/-- The dedup pass keeps, for each emitted key, the first candidate of the
input carrying that key. -/
theorem dedupCandidates_first_seen : ∀ (cs : List Candidate) (seen : List PyStr)
    (p : Candidate × ℚ), p ∈ dedupCandidates cs seen →
    cs.find? (fun c => pyStrip (pyLower c.title) == pyStrip (pyLower p.1.title)) =
      some p.1 := by
  intro cs
  induction cs with
  | nil => intro seen p hp; cases hp
  | cons c rest ih =>
    intro seen p hp
    simp only [dedupCandidates] at hp
    split at hp
    · rename_i hcond
      rcases List.mem_cons.mp hp with rfl | hp'
      · exact List.find?_cons_of_pos _ (beq_self_eq_true _)
      · have h3 := (dedupCandidates_mem rest (pyStrip (pyLower c.title) :: seen)
          p hp').2.2.1
        have hne : ¬ ((pyStrip (pyLower c.title) ==
            pyStrip (pyLower p.1.title)) = true) := by
          intro hb
          exact h3 (List.mem_cons.mpr (Or.inl (eq_of_beq hb).symm))
        exact Eq.trans (List.find?_cons_of_neg _ hne) (ih _ p hp')
    · rename_i hcond
      have hm := dedupCandidates_mem rest seen p hp
      have hne : ¬ ((pyStrip (pyLower c.title) ==
          pyStrip (pyLower p.1.title)) = true) := by
        intro hb
        have he := eq_of_beq hb
        refine hcond ⟨?_, ?_⟩
        · rw [he]; exact hm.2.2.1
        · rw [he]; exact hm.2.2.2
      exact Eq.trans (List.find?_cons_of_neg _ hne) (ih seen p hp)

/-- C2: on the main path, the candidate list returned by
`identify_section_titles_advanced` carries `combined_score = confidence +
relevance`, is sorted by that score in descending order, has pairwise
distinct normalized titles `title.lower().strip()`, and for every kept entry
the first generated candidate with its normalized title is the one kept. -/
theorem advanced_candidates_sorted_dedup (s : DocStructure) (kws : List PyStr)
    (out : List OutCandidate) (hfa : s.font_analysis.isSome = true)
    (h : identify_section_titles_advanced s kws = some out) :
    (∀ o ∈ out, o.combined_score = some (o.cand.confidence + o.cand.relevance)) ∧
    List.Pairwise (fun a b => ∀ x y, a.combined_score = some x →
      b.combined_score = some y → y ≤ x) out ∧
    List.Pairwise (fun a b =>
      pyStrip (pyLower a.cand.title) ≠ pyStrip (pyLower b.cand.title)) out ∧
    ∃ fa cs, s.font_analysis = some fa ∧ gatherCandidates s fa kws = some cs ∧
      ∀ o ∈ out, cs.find? (fun c =>
        pyStrip (pyLower c.title) == pyStrip (pyLower o.cand.title)) = some o.cand := by
  obtain ⟨fa, hfa'⟩ := Option.isSome_iff_exists.mp hfa
  simp only [identify_section_titles_advanced, hfa'] at h
  rcases Option.map_eq_some'.mp h with ⟨cs, hg, rfl⟩
  refine ⟨?_, ?_, ?_, fa, cs, hfa', hg, ?_⟩
  · intro o ho
    rcases List.mem_map.mp ho with ⟨p, hp, rfl⟩
    have hp' : p ∈ dedupCandidates cs [] :=
      (List.perm_insertionSort combinedDescRel _).mem_iff.mp hp
    exact congrArg some (dedupCandidates_mem cs [] p hp').1
  · refine List.pairwise_map.mpr ?_
    refine (List.sorted_insertionSort combinedDescRel (dedupCandidates cs [])).imp ?_
    intro p q hpq x y hx hy
    injection hx with hx
    injection hy with hy
    rw [← hx, ← hy]
    exact hpq
  · refine List.pairwise_map.mpr ?_
    exact ((List.perm_insertionSort combinedDescRel
        (dedupCandidates cs [])).pairwise_iff
        (by intro a b hab; exact Ne.symm hab)).mpr
        (dedupCandidates_keys_distinct cs [])
  · intro o ho
    rcases List.mem_map.mp ho with ⟨p, hp, rfl⟩
    have hp' : p ∈ dedupCandidates cs [] :=
      (List.perm_insertionSort combinedDescRel _).mem_iff.mp hp
    exact dedupCandidates_first_seen cs [] p hp'

/-- Witness for the C2 theorem on `zebraDoc`. -/
theorem advanced_candidates_sorted_dedup_witness :
    (∀ o ∈ [({ cand := zebraCandidate, combined_score := some (11/10) } : OutCandidate)],
      o.combined_score = some (o.cand.confidence + o.cand.relevance)) ∧
    List.Pairwise (fun a b => ∀ x y, a.combined_score = some x →
      b.combined_score = some y → y ≤ x)
      [({ cand := zebraCandidate, combined_score := some (11/10) } : OutCandidate)] ∧
    List.Pairwise (fun a b =>
      pyStrip (pyLower a.cand.title) ≠ pyStrip (pyLower b.cand.title))
      [({ cand := zebraCandidate, combined_score := some (11/10) } : OutCandidate)] ∧
    ∃ fa cs, (extract_complete_document_structure zebraDoc).font_analysis = some fa ∧
      gatherCandidates (extract_complete_document_structure zebraDoc) fa [] = some cs ∧
      ∀ o ∈ [({ cand := zebraCandidate, combined_score := some (11/10) } : OutCandidate)],
        cs.find? (fun c =>
          pyStrip (pyLower c.title) == pyStrip (pyLower o.cand.title)) = some o.cand :=
  advanced_candidates_sorted_dedup (extract_complete_document_structure zebraDoc) []
    [{ cand := zebraCandidate, combined_score := some (11/10) }]
    (by with_unfolding_all decide) (by with_unfolding_all decide)

end PDE

namespace PDE

/-- Length of the first diversification pass: the accumulator grows until 5
sections are chosen or the new documents available in the remaining list run
out. -/
theorem firstPassGo_length : ∀ (l : List SectionRec) (used : List PyStr)
    (acc : List SectionRec), acc.length ≤ 5 →
    (firstPassGo l used acc).length =
      min 5 (acc.length + ((l.map SectionRec.document).toFinset \ used.toFinset).card) := by
  intro l
  induction l with
  | nil =>
    intro used acc hacc
    simp only [firstPassGo, List.length_reverse, List.map_nil, List.toFinset_nil,
      Finset.empty_sdiff, Finset.card_empty, Nat.add_zero]
    omega
  | cons s rest ih =>
    intro used acc hacc
    simp only [firstPassGo]
    by_cases h1 : s.document ∉ used ∧ acc.length < 5
    · rw [if_pos h1, ih (s.document :: used) (s :: acc) (by simp; omega)]
      have hset : ((s :: rest).map SectionRec.document).toFinset \ used.toFinset =
          insert s.document
            ((rest.map SectionRec.document).toFinset \ (s.document :: used).toFinset) := by
        have hds := h1.1
        ext x
        simp only [List.map_cons, List.toFinset_cons, Finset.mem_sdiff,
          Finset.mem_insert, List.mem_toFinset, List.mem_cons]
        constructor
        · rintro ⟨hx1 | hx1, hx2⟩
          · exact Or.inl hx1
          · by_cases hxd : x = s.document
            · exact Or.inl hxd
            · exact Or.inr ⟨hx1, fun hc => hc.elim hxd hx2⟩
        · rintro (rfl | ⟨hx1, hx2⟩)
          · exact ⟨Or.inl rfl, hds⟩
          · exact ⟨Or.inr hx1, fun hc => hx2 (Or.inr hc)⟩
      rw [hset, Finset.card_insert_of_not_mem (by simp)]
      simp only [List.length_cons]
      omega
    · rw [if_neg h1, ih used acc hacc]
      by_cases h2 : acc.length < 5
      · have hds : s.document ∈ used := by
          by_contra hc
          exact h1 ⟨hc, h2⟩
        have hset : ((s :: rest).map SectionRec.document).toFinset \ used.toFinset =
            (rest.map SectionRec.document).toFinset \ used.toFinset := by
          ext x
          simp only [List.map_cons, List.toFinset_cons, Finset.mem_sdiff,
            Finset.mem_insert, List.mem_toFinset]
          constructor
          · rintro ⟨rfl | hx1, hx2⟩
            · exact absurd hds hx2
            · exact ⟨hx1, hx2⟩
          · rintro ⟨hx1, hx2⟩
            exact ⟨Or.inr hx1, hx2⟩
        rw [hset]
      · have : acc.length = 5 := le_antisymm hacc (not_lt.mp h2)
        omega

/-- The first pass takes at most one section per document. -/
theorem firstPassGo_docs_nodup : ∀ (l : List SectionRec) (used : List PyStr)
    (acc : List SectionRec), (acc.map SectionRec.document).Nodup →
    (∀ a ∈ acc, a.document ∈ used) →
    ((firstPassGo l used acc).map SectionRec.document).Nodup := by
  intro l
  induction l with
  | nil =>
    intro used acc hnd hsub
    simp only [firstPassGo, List.map_reverse]
    exact List.nodup_reverse.mpr hnd
  | cons h rest ih =>
    intro used acc hnd hsub
    simp only [firstPassGo]
    split
    · rename_i hc
      refine ih _ _ ?_ ?_
      · refine List.nodup_cons.mpr ⟨?_, hnd⟩
        intro hmem
        rcases List.mem_map.mp hmem with ⟨a, ha, hda⟩
        exact hc.1 (hda ▸ hsub a ha)
      · intro a ha
        rcases List.mem_cons.mp ha with rfl | ha'
        · exact List.mem_cons_self _ _
        · exact List.mem_cons_of_mem _ (hsub a ha')
    · exact ih _ _ hnd hsub

/-- Every section the first pass emits was in the accumulator already or is
the FIRST section of the walked list carrying its document. -/
theorem firstPassGo_mem : ∀ (l : List SectionRec) (used : List PyStr)
    (acc : List SectionRec) (s : SectionRec), s ∈ firstPassGo l used acc →
    s ∈ acc.reverse ∨ (s.document ∉ used ∧ acc.length < 5 ∧
      l.find? (fun t => t.document == s.document) = some s) := by
  intro l
  induction l with
  | nil =>
    intro used acc s hs
    exact Or.inl (by simpa [firstPassGo] using hs)
  | cons h rest ih =>
    intro used acc s hs
    simp only [firstPassGo] at hs
    by_cases h2 : acc.length < 5
    · by_cases hdoc : h.document ∈ used
      · rw [if_neg (fun hc => hc.1 hdoc)] at hs
        rcases ih _ _ _ hs with hl | ⟨hd, hlen, hfind⟩
        · exact Or.inl hl
        · refine Or.inr ⟨hd, hlen, Eq.trans (List.find?_cons_of_neg _ ?_) hfind⟩
          intro hb
          exact hd (eq_of_beq hb ▸ hdoc)
      · rw [if_pos ⟨hdoc, h2⟩] at hs
        rcases ih _ _ _ hs with hl | ⟨hd, hlen, hfind⟩
        · rw [List.reverse_cons] at hl
          rcases List.mem_append.mp hl with hl' | hl'
          · exact Or.inl hl'
          · have hsh : s = h := by simpa using hl'
            subst hsh
            exact Or.inr ⟨hdoc, h2, List.find?_cons_of_pos _ (beq_self_eq_true _)⟩
        · refine Or.inr ⟨fun hmem => hd (List.mem_cons_of_mem _ hmem),
            Nat.lt_of_succ_lt hlen,
            Eq.trans (List.find?_cons_of_neg _ ?_) hfind⟩
          intro hb
          exact hd (List.mem_cons.mpr (Or.inl (eq_of_beq hb).symm))
    · rw [if_neg (fun hc => h2 hc.2)] at hs
      rcases ih _ _ _ hs with hl | ⟨hd, hlen, hfind⟩
      · exact Or.inl hl
      · exact absurd hlen h2

/-- In a list sorted by descending global relevance, the first section with a
given document has the highest global relevance among the sections with that
document. -/
theorem find?_doc_max : ∀ (l : List SectionRec),
    List.Pairwise sectionDescRel l → ∀ s,
    l.find? (fun t => t.document == s.document) = some s →
    ∀ t ∈ l, t.document = s.document →
    t.global_relevance ≤ s.global_relevance := by
  intro l
  induction l with
  | nil =>
    intro _ s hf
    exact absurd hf (by simp)
  | cons h rest ih =>
    intro hpw s hf t ht htd
    rcases hbeq : (h.document == s.document) with _ | _ <;>
      simp only [List.find?_cons, hbeq] at hf
    · rcases List.mem_cons.mp ht with rfl | ht'
      · simp [htd] at hbeq
      · exact ih (List.pairwise_cons.mp hpw).2 s hf t ht' htd
    · injection hf with hf
      subst hf
      rcases List.mem_cons.mp ht with rfl | ht'
      · exact le_refl _
      · exact (List.pairwise_cons.mp hpw).1 t ht'

/-- C4: when the accumulated sections span at least 5 distinct documents, the
first diversification pass over the globally ranked list selects exactly 5
sections, at most one per document (their documents are pairwise distinct),
and for each chosen document it keeps the first-ranked — hence
highest-globally-ranked — section of that document. -/
theorem first_pass_diversification (all : List SectionRec)
    (h5 : 5 ≤ distinctDocs all) :
    (firstPass (sortSections all)).length = 5 ∧
    ((firstPass (sortSections all)).map SectionRec.document).Nodup ∧
    ∀ s ∈ firstPass (sortSections all),
      (sortSections all).find? (fun t => t.document == s.document) = some s ∧
      ∀ t ∈ all, t.document = s.document →
        t.global_relevance ≤ s.global_relevance := by
  have hdocs : distinctDocs (sortSections all) = distinctDocs all := by
    unfold distinctDocs
    congr 1
    ext x
    simp only [List.mem_toFinset]
    exact ((List.perm_insertionSort sectionDescRel all).map SectionRec.document).mem_iff
  refine ⟨?_, ?_, ?_⟩
  · rw [firstPass, firstPassGo_length (sortSections all) [] [] (by simp)]
    have h5' : 5 ≤ ((sortSections all).map SectionRec.document).toFinset.card := by
      rw [show ((sortSections all).map SectionRec.document).toFinset.card =
        distinctDocs (sortSections all) from rfl, hdocs]
      exact h5
    simp only [List.length_nil, List.toFinset_nil, Finset.sdiff_empty, Nat.zero_add]
    omega
  · exact firstPassGo_docs_nodup _ [] [] (by simp) (by intro a ha; cases ha)
  · intro s hs
    rcases firstPassGo_mem _ [] [] s hs with hl | ⟨-, -, hfind⟩
    · simp at hl
    · refine ⟨hfind, ?_⟩
      intro t ht htd
      exact find?_doc_max (sortSections all)
        (List.sorted_insertionSort sectionDescRel all) s hfind t
        ((List.perm_insertionSort sectionDescRel all).mem_iff.mpr ht) htd

/-- Witness for the C4 theorem on `sampleSections` (6 sections over 5
documents). -/
theorem first_pass_diversification_witness :
    (firstPass (sortSections sampleSections)).length = 5 ∧
    ((firstPass (sortSections sampleSections)).map SectionRec.document).Nodup ∧
    ∀ s ∈ firstPass (sortSections sampleSections),
      (sortSections sampleSections).find? (fun t => t.document == s.document) =
        some s ∧
      ∀ t ∈ sampleSections, t.document = s.document →
        t.global_relevance ≤ s.global_relevance :=
  first_pass_diversification sampleSections (by with_unfolding_all decide)

end PDE

namespace PDE

/-- A pattern none of whose alignments agrees with the word `w` never matches
at a position inside `w`, whatever follows `w`. -/
theorem not_prefix_of_drop_append (p w Y : PyStr)
    (H2 : ∀ k, k < w.length → ¬(p.isPrefixOf (w.drop k) = true ∨
      (w.drop k).isPrefixOf p = true))
    (k : Nat) (hk : k < w.length) : ¬ p.isPrefixOf (w.drop k ++ Y) = true := by
  intro hpre
  have hp1 : p <+: w.drop k ++ Y := List.isPrefixOf_iff_prefix.mp hpre
  have hp2 : w.drop k <+: w.drop k ++ Y := List.prefix_append _ _
  rcases List.prefix_or_prefix_of_prefix hp1 hp2 with h | h
  · exact H2 k hk (Or.inl (List.isPrefixOf_iff_prefix.mpr h))
  · exact H2 k hk (Or.inr (List.isPrefixOf_iff_prefix.mpr h))

/-- Scanning from the start of a word with no agreeing alignment counts no
matches before the tail. -/
theorem pyCountGo_skip_word (p : PyStr) :
    ∀ (w Y : PyStr), (∀ k, k < w.length → ¬(p.isPrefixOf (w.drop k) = true ∨
      (w.drop k).isPrefixOf p = true)) →
    pyCountGo p (w ++ Y) 0 = pyCountGo p Y 0 := by
  intro w
  induction w with
  | nil => intro Y _; rfl
  | cons c wt ih =>
    intro Y H2
    have hnp := not_prefix_of_drop_append p (c :: wt) Y H2 0 (by simp)
    rw [List.drop_zero, List.cons_append] at hnp
    simp only [List.cons_append, pyCountGo, List.append_eq]
    rw [if_neg hnp]
    exact ih Y (fun k hk => H2 (k + 1) (Nat.succ_lt_succ hk))

/-- A match that starts inside `u` and would continue into a nonempty word
whose first character does not occur past the head of `p` in fact lies inside
`u`. -/
theorem prefix_fit (p u w Y : PyStr) (hu : u ≠ []) (hw : w ≠ [])
    (H3 : ∀ c ∈ p.drop 1, w.head? ≠ some c)
    (hpre : p <+: u ++ (w ++ Y)) : p <+: u := by
  rcases List.prefix_or_prefix_of_prefix hpre (List.prefix_append u (w ++ Y)) with h | h
  · exact h
  · obtain ⟨t, ht⟩ := h
    cases t with
    | nil =>
      rw [List.append_nil] at ht
      rw [← ht]
    | cons th tt =>
      exfalso
      rw [← ht] at hpre
      have htw : (th :: tt) <+: w ++ Y := (List.prefix_append_right_inj u).mp hpre
      cases w with
      | nil => exact hw rfl
      | cons wh wt =>
        obtain ⟨r, hr⟩ := htw
        simp only [List.cons_append] at hr
        injection hr with hhd htl
        cases u with
        | nil => exact hu rfl
        | cons uh ut =>
          have hmem : th ∈ p.drop 1 := by
            rw [← ht]
            simp
          exact H3 th hmem (by rw [List.head?_cons, hhd])

/-- Replacing one crossing-free word by another between fixed context strings
does not change the non-overlapping match count of the scanner. -/
theorem pyCountGo_append_congr (p w w' Y : PyStr) (hw : w ≠ []) (hw' : w' ≠ [])
    (H2 : ∀ k, k < w.length → ¬(p.isPrefixOf (w.drop k) = true ∨
      (w.drop k).isPrefixOf p = true))
    (H2' : ∀ k, k < w'.length → ¬(p.isPrefixOf (w'.drop k) = true ∨
      (w'.drop k).isPrefixOf p = true))
    (H3 : ∀ c ∈ p.drop 1, w.head? ≠ some c)
    (H3' : ∀ c ∈ p.drop 1, w'.head? ≠ some c) :
    ∀ (X : PyStr) (s : Nat), s ≤ X.length →
    pyCountGo p (X ++ (w ++ Y)) s = pyCountGo p (X ++ (w' ++ Y)) s := by
  intro X
  induction X with
  | nil =>
    intro s hs
    have hs0 : s = 0 := Nat.le_zero.mp hs
    subst hs0
    rw [List.nil_append, List.nil_append, pyCountGo_skip_word p w Y H2,
      pyCountGo_skip_word p w' Y H2']
  | cons x xt ih =>
    intro s hs
    cases s with
    | succ t =>
      simp only [List.cons_append, pyCountGo, List.append_eq]
      exact ih t (Nat.le_of_succ_le_succ hs)
    | zero =>
      simp only [List.cons_append, pyCountGo, List.append_eq]
      by_cases hpre : p.isPrefixOf (x :: (xt ++ (w ++ Y))) = true
      · have hfit : p <+: x :: xt :=
          prefix_fit p (x :: xt) w Y (List.cons_ne_nil x xt) hw H3
            (List.isPrefixOf_iff_prefix.mp hpre)
        have hpre' : p.isPrefixOf (x :: (xt ++ (w' ++ Y))) = true := by
          rw [List.isPrefixOf_iff_prefix]
          exact hfit.trans (List.prefix_append (x :: xt) (w' ++ Y))
        rw [if_pos hpre, if_pos hpre']
        have hlen : p.length ≤ xt.length + 1 := hfit.length_le
        rw [ih (p.length - 1) (by omega)]
      · have hpre' : ¬ p.isPrefixOf (x :: (xt ++ (w' ++ Y))) = true := by
          intro hp'
          have hfit : p <+: x :: xt :=
            prefix_fit p (x :: xt) w' Y (List.cons_ne_nil x xt) hw' H3'
              (List.isPrefixOf_iff_prefix.mp hp')
          exact hpre (by
            rw [List.isPrefixOf_iff_prefix]
            exact hfit.trans (List.prefix_append (x :: xt) (w ++ Y)))
        rw [if_neg hpre, if_neg hpre']
        exact ih 0 (Nat.zero_le _)

/-- `str.count` version of the word-replacement congruence. -/
theorem pyCount_append_congr (p w w' Y : PyStr) (hp : p.isEmpty = false)
    (hw : w ≠ []) (hw' : w' ≠ [])
    (H2 : ∀ k, k < w.length → ¬(p.isPrefixOf (w.drop k) = true ∨
      (w.drop k).isPrefixOf p = true))
    (H2' : ∀ k, k < w'.length → ¬(p.isPrefixOf (w'.drop k) = true ∨
      (w'.drop k).isPrefixOf p = true))
    (H3 : ∀ c ∈ p.drop 1, w.head? ≠ some c)
    (H3' : ∀ c ∈ p.drop 1, w'.head? ≠ some c) (X : PyStr) :
    pyCount p (X ++ (w ++ Y)) = pyCount p (X ++ (w' ++ Y)) := by
  unfold pyCount
  rw [hp]
  simp only [Bool.false_eq_true, if_false]
  exact pyCountGo_append_congr p w w' Y hw hw' H2 H2' H3 H3' X 0 (Nat.zero_le _)

end PDE

namespace PDE

/-- Substring containment as an occurrence decomposition. -/
theorem pyIn_exists (p s : PyStr) : pyIn p s = true ↔ ∃ u v, s = u ++ (p ++ v) := by
  unfold pyIn
  rw [List.any_eq_true]
  constructor
  · rintro ⟨i, hi, hpre⟩
    obtain ⟨v, hv⟩ := List.isPrefixOf_iff_prefix.mp hpre
    exact ⟨s.take i, v, by rw [hv, List.take_append_drop]⟩
  · rintro ⟨u, v, rfl⟩
    refine ⟨u.length, ?_, ?_⟩
    · rw [List.mem_range]
      simp only [List.length_append]
      omega
    · rw [List.isPrefixOf_iff_prefix, List.drop_left]
      exact List.prefix_append _ _

/-- One direction of the containment congruence: an occurrence of `p` in
`X ++ w ++ Y` avoids the crossing-free word `w`, so it survives replacing
`w`. -/
theorem pyIn_append_mp (p w w' Y : PyStr) (hw : w ≠ [])
    (H2 : ∀ k, k < w.length → ¬(p.isPrefixOf (w.drop k) = true ∨
      (w.drop k).isPrefixOf p = true))
    (H3 : ∀ c ∈ p.drop 1, w.head? ≠ some c) :
    ∀ X, pyIn p (X ++ (w ++ Y)) = true → pyIn p (X ++ (w' ++ Y)) = true := by
  intro X hin
  obtain ⟨u, v, he⟩ := (pyIn_exists _ _).mp hin
  rw [pyIn_exists]
  by_cases h1 : u.length + p.length ≤ X.length
  · have hup : u ++ p <+: X := by
      have ha : u ++ p <+: X ++ (w ++ Y) := by
        rw [he]
        exact ⟨v, by rw [List.append_assoc]⟩
      exact List.prefix_of_prefix_length_le ha (List.prefix_append _ _)
        (by simpa [List.length_append] using h1)
    obtain ⟨t, ht⟩ := hup
    refine ⟨u, t ++ (w' ++ Y), ?_⟩
    rw [← ht]
    simp [List.append_assoc]
  · by_cases h2 : X.length + w.length ≤ u.length
    · have hxu : X ++ w <+: u := by
        have hu' : u <+: X ++ (w ++ Y) := by
          rw [he]; exact List.prefix_append _ _
        have hx : X ++ w <+: X ++ (w ++ Y) := ⟨Y, by rw [List.append_assoc]⟩
        exact List.prefix_of_prefix_length_le hx hu'
          (by simpa [List.length_append] using h2)
      obtain ⟨r, hr⟩ := hxu
      have hy : Y = r ++ (p ++ v) := by
        have hstep : X ++ (w ++ Y) = X ++ (w ++ (r ++ (p ++ v))) := by
          rw [he, ← hr]
          simp [List.append_assoc]
        exact List.append_cancel_left (List.append_cancel_left hstep)
      refine ⟨X ++ (w' ++ r), v, ?_⟩
      rw [hy]
      simp [List.append_assoc]
    · exfalso
      push_neg at h1 h2
      by_cases h3 : X.length ≤ u.length
      · have hxu : X <+: u := by
          have hu' : u <+: X ++ (w ++ Y) := by
            rw [he]; exact List.prefix_append _ _
          exact List.prefix_of_prefix_length_le (List.prefix_append _ _) hu' h3
        obtain ⟨z, hz⟩ := hxu
        have hwy : w ++ Y = z ++ (p ++ v) := by
          have hst : X ++ (w ++ Y) = X ++ (z ++ (p ++ v)) := by
            rw [he, ← hz]
            simp [List.append_assoc]
          exact List.append_cancel_left hst
        have hlz : X.length + z.length = u.length := by
          have := congrArg List.length hz
          simpa [List.length_append] using this
        have hzw : z <+: w := by
          have hz1 : z <+: w ++ Y := ⟨p ++ v, hwy.symm⟩
          exact List.prefix_of_prefix_length_le hz1 (List.prefix_append _ _)
            (by omega)
        obtain ⟨zr, hzr⟩ := hzw
        have hzY : zr ++ Y = p ++ v := by
          have hst2 : z ++ (zr ++ Y) = z ++ (p ++ v) := by
            rw [← List.append_assoc, hzr]
            exact hwy
          exact List.append_cancel_left hst2
        have hdrop : w.drop z.length = zr := by
          rw [← hzr]
          exact List.drop_left _ _
        have hklt : z.length < w.length := by
          have hlen := congrArg List.length hzr
          simp only [List.length_append] at hlen
          have hzrne : zr ≠ [] := by
            intro hnil
            rw [hnil, List.append_nil] at hzr
            subst hzr
            omega
          have hzrpos : 0 < zr.length := List.length_pos.mpr hzrne
          omega
        refine not_prefix_of_drop_append p w Y H2 z.length hklt ?_
        rw [List.isPrefixOf_iff_prefix, hdrop]
        exact ⟨v, hzY.symm⟩
      · push_neg at h3
        have huX : u <+: X := by
          have hXw : X <+: X ++ (w ++ Y) := List.prefix_append _ _
          have hu' : u <+: X ++ (w ++ Y) := by
            rw [he]; exact List.prefix_append _ _
          exact List.prefix_of_prefix_length_le hu' hXw (Nat.le_of_lt h3)
        obtain ⟨z, hz⟩ := huX
        have hzne : z ≠ [] := by
          intro hnil
          rw [hnil, List.append_nil] at hz
          rw [hz] at h3
          exact lt_irrefl _ h3
        have hp1 : p <+: z ++ (w ++ Y) := by
          have hzw : z ++ (w ++ Y) = p ++ v := by
            have hst3 : u ++ (z ++ (w ++ Y)) = u ++ (p ++ v) := by
              rw [← List.append_assoc, hz]
              exact he
            exact List.append_cancel_left hst3
          exact ⟨v, hzw.symm⟩
        have hfit : p <+: z := prefix_fit p z w Y hzne hw H3 hp1
        have hlp := hfit.length_le
        have hlz : u.length + z.length = X.length := by
          have := congrArg List.length hz
          simpa [List.length_append] using this
        omega

/-- Containment congruence under replacement of a crossing-free word. -/
theorem pyIn_append_congr (p w w' Y : PyStr) (hw : w ≠ []) (hw' : w' ≠ [])
    (H2 : ∀ k, k < w.length → ¬(p.isPrefixOf (w.drop k) = true ∨
      (w.drop k).isPrefixOf p = true))
    (H2' : ∀ k, k < w'.length → ¬(p.isPrefixOf (w'.drop k) = true ∨
      (w'.drop k).isPrefixOf p = true))
    (H3 : ∀ c ∈ p.drop 1, w.head? ≠ some c)
    (H3' : ∀ c ∈ p.drop 1, w'.head? ≠ some c) (X : PyStr) :
    pyIn p (X ++ (w ++ Y)) = pyIn p (X ++ (w' ++ Y)) := by
  have hmp := pyIn_append_mp p w w' Y hw H2 H3 X
  have hmpr := pyIn_append_mp p w' w Y hw' H2' H3' X
  cases hb : pyIn p (X ++ (w ++ Y)) with
  | true => exact (hmp hb).symm
  | false =>
    cases hb' : pyIn p (X ++ (w' ++ Y)) with
    | false => rfl
    | true =>
      have hcontra := hmpr hb'
      rw [hb] at hcontra
      exact hcontra

end PDE

namespace PDE

/-- The number of words still to be produced depends on the pending word only
through its emptiness. -/
theorem pySplitWsGo_length_congr : ∀ (Y cur cur' : PyStr),
    cur.isEmpty = cur'.isEmpty →
    (pySplitWsGo Y cur).length = (pySplitWsGo Y cur').length := by
  intro Y
  induction Y with
  | nil =>
    intro cur cur' h
    rcases hc : cur'.isEmpty with _ | _ <;> rw [hc] at h <;>
      simp [pySplitWsGo, h, hc]
  | cons c rest ih =>
    intro cur cur' h
    simp only [pySplitWsGo]
    by_cases hsp : isPySpace c = true
    · rw [if_pos hsp, if_pos hsp]
      rcases hc : cur'.isEmpty with _ | _ <;> rw [hc] at h <;>
        simp only [h, hc, Bool.false_eq_true, if_false, if_true,
          List.length_cons]
    · rw [if_neg hsp, if_neg hsp]
      exact ih (c :: cur) (c :: cur') rfl

/-- Scanning a space-free word just accumulates it onto the pending word. -/
theorem pySplitWsGo_through_word : ∀ (w : PyStr),
    (∀ c ∈ w, isPySpace c = false) → ∀ (Y cur : PyStr),
    pySplitWsGo (w ++ Y) cur = pySplitWsGo Y (w.reverse ++ cur) := by
  intro w
  induction w with
  | nil =>
    intro _ Y cur
    simp
  | cons c wt ih =>
    intro hw Y cur
    have hc : isPySpace c = false := hw c (List.mem_cons_self _ _)
    simp only [List.cons_append, pySplitWsGo, List.append_eq]
    rw [if_neg (by rw [hc]; exact Bool.false_ne_true)]
    rw [ih (fun d hd => hw d (List.mem_cons_of_mem _ hd)) Y (c :: cur)]
    simp [List.append_assoc]

/-- Replacing one space-free nonempty word by another between fixed contexts
keeps the word count of `str.split()`. -/
theorem pySplitWsGo_word_count_congr (w w' Y : PyStr)
    (hw : w ≠ []) (hw' : w' ≠ [])
    (hws : ∀ c ∈ w, isPySpace c = false) (hws' : ∀ c ∈ w', isPySpace c = false) :
    ∀ (X cur : PyStr),
    (pySplitWsGo (X ++ (w ++ Y)) cur).length =
      (pySplitWsGo (X ++ (w' ++ Y)) cur).length := by
  have hne : ∀ (u v : PyStr), u ≠ [] → (u ++ v).isEmpty = false := by
    intro u v hu
    cases u with
    | nil => exact absurd rfl hu
    | cons a b => rfl
  intro X
  induction X with
  | nil =>
    intro cur
    rw [List.nil_append, List.nil_append, pySplitWsGo_through_word w hws Y cur,
      pySplitWsGo_through_word w' hws' Y cur]
    refine pySplitWsGo_length_congr Y _ _ ?_
    rw [hne _ _ (by intro hrev; exact hw (by simpa using congrArg List.reverse hrev)),
      hne _ _ (by intro hrev; exact hw' (by simpa using congrArg List.reverse hrev))]
  | cons x xt ih =>
    intro cur
    simp only [List.cons_append, pySplitWsGo, List.append_eq]
    by_cases hsp : isPySpace x = true
    · rw [if_pos hsp, if_pos hsp]
      by_cases hce : cur.isEmpty = true
      · rw [if_pos hce, if_pos hce]
        exact ih []
      · rw [if_neg hce, if_neg hce]
        simp only [List.length_cons]
        rw [ih []]
    · rw [if_neg hsp, if_neg hsp]
      exact ih (x :: cur)

end PDE

namespace PDE

/-- With the single persona keyword `vegetarian`, the content relevance reads
the content only through six features: the `vegetarian` hit count, the word
count, containment of `vege` and `rian` in the lowered text, and the colon
presence and count. -/
theorem ccr_veg_congr (c1 c2 : PyStr)
    (h1 : pyCount (ofStr "vegetarian") (pyLower c1) =
      pyCount (ofStr "vegetarian") (pyLower c2))
    (h2 : (pySplitWs c1).length = (pySplitWs c2).length)
    (h3 : pyIn (ofStr "vege") (pyLower c1) = pyIn (ofStr "vege") (pyLower c2))
    (h4 : pyIn (ofStr "rian") (pyLower c1) = pyIn (ofStr "rian") (pyLower c2))
    (h5 : pyIn [ ':'] c1 = pyIn [ ':'] c2)
    (h6 : pyCount [ ':'] c1 = pyCount [ ':'] c2) :
    calculate_content_relevance c1 [ofStr "vegetarian"] =
      calculate_content_relevance c2 [ofStr "vegetarian"] := by
  unfold calculate_content_relevance
  rw [if_neg (by decide), if_neg (by decide)]
  dsimp only
  simp only [List.foldl_cons, List.foldl_nil, List.countP_cons, List.countP_nil,
    Nat.zero_add]
  rw [show pyJoinSpace [ofStr "vegetarian"] = ofStr "vegetarian" from rfl]
  rw [show pyLower (ofStr "vegetarian") = ofStr "vegetarian" from rfl]
  rw [show (ofStr "vegetarian").take 4 = ofStr "vege" from rfl]
  rw [show lastN 4 (ofStr "vegetarian") = ofStr "rian" from rfl]
  rw [show pyIn (ofStr "non-vegetarian") (ofStr "vegetarian") = false from by decide]
  simp only [Bool.false_eq_true, if_false]
  rw [h1, h2, h3, h4, h5, h6]

end PDE

namespace PDE

/-- C3 (amended): with the persona keyword `vegetarian`, content containing
`chicken` scores exactly the SAME as the otherwise-identical content with
`lentil` in its place — not strictly lower.  `calculate_content_relevance`
has no vegetarian-specific branch (only a `non-vegetarian` meat boost), and
none of the features it reads can tell the two words apart. -/
theorem content_relevance_vegetarian_insensitive (A B : PyStr) :
    calculate_content_relevance (A ++ ofStr "chicken" ++ B) [ofStr "vegetarian"] =
      calculate_content_relevance (A ++ ofStr "lentil" ++ B) [ofStr "vegetarian"] := by
  have e1 : pyLower (A ++ ofStr "chicken" ++ B) =
      pyLower A ++ (ofStr "chicken" ++ pyLower B) := by
    simp only [pyLower, List.map_append, List.append_assoc]
    rw [show List.map toLowerC (ofStr "chicken") = ofStr "chicken" from rfl]
  have e2 : pyLower (A ++ ofStr "lentil" ++ B) =
      pyLower A ++ (ofStr "lentil" ++ pyLower B) := by
    simp only [pyLower, List.map_append, List.append_assoc]
    rw [show List.map toLowerC (ofStr "lentil") = ofStr "lentil" from rfl]
  refine ccr_veg_congr _ _ ?_ ?_ ?_ ?_ ?_ ?_
  · rw [e1, e2]
    exact pyCount_append_congr (ofStr "vegetarian") (ofStr "chicken")
      (ofStr "lentil") (pyLower B) (by decide) (by decide) (by decide)
      (by decide) (by decide) (by decide) (by decide) (pyLower A)
  · rw [List.append_assoc, List.append_assoc]
    exact pySplitWsGo_word_count_congr (ofStr "chicken") (ofStr "lentil") B
      (by decide) (by decide) (by decide) (by decide) A []
  · rw [e1, e2]
    exact pyIn_append_congr (ofStr "vege") (ofStr "chicken") (ofStr "lentil")
      (pyLower B) (by decide) (by decide) (by decide) (by decide) (by decide)
      (by decide) (pyLower A)
  · rw [e1, e2]
    exact pyIn_append_congr (ofStr "rian") (ofStr "chicken") (ofStr "lentil")
      (pyLower B) (by decide) (by decide) (by decide) (by decide) (by decide)
      (by decide) (pyLower A)
  · rw [List.append_assoc, List.append_assoc]
    exact pyIn_append_congr [ ':'] (ofStr "chicken") (ofStr "lentil") B
      (by decide) (by decide) (by decide) (by decide) (by decide) (by decide) A
  · rw [List.append_assoc, List.append_assoc]
    exact pyCount_append_congr [ ':'] (ofStr "chicken") (ofStr "lentil") B
      (by decide) (by decide) (by decide) (by decide) (by decide) (by decide)
      (by decide) A

end PDE
